import Mathlib

/-!
Verification of the Smart Generation quality-report analyzer
(`scripts/smart_generation_quality_report.py`).

The analytical core of the script is shallowly embedded over `ℚ`.
Python floats are modelled as exact rationals; the Python helpers
`int(·)` (truncation toward zero) and `round(·)` (banker's rounding)
are modelled explicitly as `pytrunc` and `pyround`.  Optional JSON
fields read with `dict.get(key, default)` are modelled as `Option`
fields consumed with `Option.getD`.  The transcendental functions
used only by the spring easing (`exp`, `cos`, `sin`, `sqrt`, `π`)
have no exact rational counterpart; they are abstracted as a record
of rational-valued parameters (`RealFns`), and every theorem about
them assumes only values the real functions actually take (for
instance `exp 0 = 1`).
-/

/-- Python `int(x)` for a rational: truncation toward zero. -/
def pytrunc (q : ℚ) : Int :=
  if q < 0 then ⌈q⌉ else ⌊q⌋

/-- Python 3 `round(x)` to an integer: round half to even. -/
def pyround (q : ℚ) : Int :=
  let f := ⌊q⌋
  let r := q - f
  if r < 1/2 then f
  else if 1/2 < r then f + 1
  else if f % 2 = 0 then f else f + 1

/-- Source `clamp(value, lower, upper)` from the source. -/
def clamp (value lower upper : ℚ) : ℚ :=
  max lower (min upper value)

/-- Source `CameraSample` dataclass. -/
structure CameraSample where
  time : ℚ
  x : ℚ
  y : ℚ
  zoom : ℚ
deriving Repr, DecidableEq

/-- Source `DynamicsSample` dataclass. -/
structure DynamicsSample where
  time : ℚ
  pan_speed : ℚ
  zoom_speed : ℚ
  jerk : ℚ
deriving Repr, DecidableEq

/-- Default camera sample used where the source would never actually
read the value (out-of-range `getD`); chosen with `zoom = 1`. -/
def dfltCam : CameraSample := ⟨0, 1/2, 1/2, 1⟩

/-- Default dynamics sample for out-of-range `getD`. -/
def dfltDyn : DynamicsSample := ⟨0, 0, 0, 0⟩

/-- Source `percentile(values, p)` from the source: sort ascending, rank
`(n-1)·p/100`, floor/ceil indexing with linear interpolation. -/
def percentile (values : List ℚ) (p : ℚ) : Option ℚ :=
  if values = [] then none
  else
    let ordered := values.insertionSort (· ≤ ·)
    if ordered.length = 1 then some (ordered.getD 0 0)
    else
      let rank : ℚ := ((ordered.length : ℚ) - 1) * (p / 100)
      let lo := ⌊rank⌋
      let hi := ⌈rank⌉
      if lo = hi then some (ordered.getD lo.toNat 0)
      else
        let weight := rank - lo
        some (ordered.getD lo.toNat 0 * (1 - weight) + ordered.getD hi.toNat 0 * weight)


/-- Source `clamp_center_for_zoom(x, y, zoom)` from the source. -/
def clamp_center_for_zoom (x y zoom : ℚ) : ℚ × ℚ :=
  if zoom ≤ 1 then (x, y)
  else
    let halfR := (1/2) / max zoom 1
    (clamp x halfR (1 - halfR), clamp y halfR (1 - halfR))

/-- Stand-ins for the transcendental functions used by the spring
easing (`math.exp`, `math.cos`, `math.sin`, `math.sqrt`, `math.pi`).
They are not exactly representable over `ℚ`, so the embedding takes
them as parameters; theorems assume only values the corresponding
real functions actually take (such as `fexp 0 = 1`). -/
structure RealFns where
  fexp : ℚ → ℚ
  fcos : ℚ → ℚ
  fsin : ℚ → ℚ
  fsqrt : ℚ → ℚ
  fpi : ℚ

/-- A concrete instantiation of `RealFns` agreeing with the real
transcendental functions at the argument `0`; used to evaluate
witnesses on concrete inputs. -/
def stubFns : RealFns where
  fexp := fun _ => 1
  fcos := fun _ => 1
  fsin := fun _ => 0
  fsqrt := fun _ => 0
  fpi := 3

/-- Source `spring_raw_value(zeta, omega, actual_time)` from the source. -/
def spring_raw_value (fns : RealFns) (zeta omega actual_time : ℚ) : ℚ :=
  if zeta ≥ 1 then
    let zo := zeta * omega
    let decay := fns.fexp (-(zo * actual_time))
    1 - (1 + zo * actual_time) * decay
  else
    let wd := omega * fns.fsqrt (max (1/100000000) (1 - zeta * zeta))
    let zo := zeta * omega
    let decay := fns.fexp (-(zo * actual_time))
    1 - decay * (fns.fcos (wd * actual_time) + (zo / wd) * fns.fsin (wd * actual_time))

/-- Source `bezier_x(t, p1x, p2x)` from the source. -/
def bezier_x (t p1x p2x : ℚ) : ℚ :=
  let mt := 1 - t
  3 * mt * mt * t * p1x + 3 * mt * t * t * p2x + t * t * t

/-- Source `bezier_y(t, p1y, p2y)` from the source. -/
def bezier_y (t p1y p2y : ℚ) : ℚ :=
  let mt := 1 - t
  3 * mt * mt * t * p1y + 3 * mt * t * t * p2y + t * t * t

/-- Source `bezier_x_derivative(t, p1x, p2x)` from the source. -/
def bezier_x_derivative (t p1x p2x : ℚ) : ℚ :=
  let mt := 1 - t
  3 * mt * mt * p1x + 6 * mt * t * (p2x - p1x) + 3 * t * t * (1 - p2x)

/-- The Newton iteration inside `cubic_bezier_value`; the fuel
argument models `for _ in range(10)`, and the two `break` conditions
return the current iterate. -/
def bezierNewton (t p1x p2x : ℚ) : Nat → ℚ → ℚ
  | 0, x => x
  | Nat.succ n, x =>
    let xValue := bezier_x x p1x p2x
    let diff := xValue - t
    if |diff| < 1/10000 then x
    else
      let derivative := bezier_x_derivative x p1x p2x
      if |derivative| < 1/10000 then x
      else bezierNewton t p1x p2x n (x - diff / derivative)

/-- Source `cubic_bezier_value(t, p1x, p1y, p2x, p2y)` from the source:
ten Newton steps starting at `x = t`, then evaluate `bezier_y`. -/
def cubic_bezier_value (t p1x p1y p2x p2y : ℚ) : ℚ :=
  bezier_y (bezierNewton t p1x p2x 10 t) p1y p2y

/-- Easing descriptor: the `interpolation` dictionary of a segment.
`other` stands for any unrecognized `type` tag.  Optional control
parameters model the corresponding `dict.get(key, default)` reads
(`damping` is the source's `dampingRatio` key). -/
inductive Easing where
  | linear : Easing
  | easeIn : Easing
  | easeOut : Easing
  | easeInOut : Easing
  | cubicBezier (p1x p1y p2x p2y : Option ℚ) : Easing
  | spring (damping response : Option ℚ) : Easing
  | other : Easing
deriving Repr, DecidableEq

/-- Source `apply_easing(easing, progress, duration)` from the source. -/
def apply_easing (fns : RealFns) (easing : Easing) (progress duration : ℚ) : ℚ :=
  let t := clamp progress 0 1
  let result :=
    match easing with
    | Easing.linear => t
    | Easing.easeIn => t * t
    | Easing.easeOut => t * (2 - t)
    | Easing.easeInOut => if t < 1/2 then 2 * t * t else -1 + (4 - 2 * t) * t
    | Easing.cubicBezier p1x p1y p2x p2y =>
      cubic_bezier_value t (p1x.getD (1/4)) (p1y.getD (1/10)) (p2x.getD (1/4)) (p2y.getD 1)
    | Easing.spring damping response =>
      let zeta := damping.getD 1
      let response := max (1/100) (response.getD (4/5))
      let omega := 2 * fns.fpi / response
      let actualTime := t * max duration (1/1000)
      let raw := spring_raw_value fns zeta omega actualTime
      let endValue := spring_raw_value fns zeta omega (max duration (1/1000))
      if |endValue| < 1/1000000 then t else raw / endValue
    | Easing.other => t
  clamp result 0 1

/-- The `{"x": …, "y": …}` center dictionary; missing keys default to
`0.5` at the read sites. -/
structure Center where
  x : Option ℚ
  y : Option ℚ
deriving Repr, DecidableEq

/-- The `{"center": …, "zoom": …}` transform dictionary. -/
structure Transform where
  center : Option Center
  zoom : Option ℚ
deriving Repr, DecidableEq

/-- A timeline transform segment dictionary.  Every field is
optional, mirroring the `dict.get` reads with their per-site
defaults in the source. -/
structure Segment where
  startTime : Option ℚ
  endTime : Option ℚ
  startTransform : Option Transform
  endTransform : Option Transform
  interpolation : Option Easing
deriving Repr, DecidableEq

/-- Default segment (never actually read: the source indexes
`segments[segment_index]` only in bounds). -/
def dfltSeg : Segment := ⟨none, none, none, none, none⟩

/-- Source `center.get("x", 0.5)` composed with
`transform.get("center", {"x": 0.5, "y": 0.5})`: both a missing
center and a missing coordinate yield `0.5`. -/
def centerX (t : Option Transform) : ℚ :=
  match t with
  | none => 1/2
  | some tr =>
    match tr.center with
    | none => 1/2
    | some c => c.x.getD (1/2)

/-- The `y` analogue of `centerX`. -/
def centerY (t : Option Transform) : ℚ :=
  match t with
  | none => 1/2
  | some tr =>
    match tr.center with
    | none => 1/2
    | some c => c.y.getD (1/2)

/-- Source `transform.get("zoom", 1.0)` over an optional transform
(`seg.get("startTransform", {})` yields the empty dictionary, whose
`zoom` read then defaults to `1.0`). -/
def transformZoom (t : Option Transform) : ℚ :=
  match t with
  | none => 1
  | some tr => tr.zoom.getD 1

/-- The cursor-advance `while` loop of `sample_camera_from_segments`:
while `segment_index + 1 < len(segments)` and
`t ≥ segments[segment_index].endTime` (default `0.0`), advance. -/
def advanceIndex (segs : List Segment) (t : ℚ) (i : Nat) : Nat :=
  if i + 1 < segs.length ∧ (segs.getD i dfltSeg).endTime.getD 0 ≤ t then
    advanceIndex segs t (i + 1)
  else i
termination_by segs.length - i

/-- The body of the active branch of `sample_camera_from_segments`
(source lines 235–261): eased interpolation of center and zoom from
the active segment, followed by center clamping. -/
def activeSample (fns : RealFns) (seg : Segment) (t : ℚ) : CameraSample :=
  let startT := seg.startTime.getD 0
  let endT := seg.endTime.getD (startT + 1/1000)
  let segmentDuration := max (1/1000) (endT - startT)
  let rawProgress := (t - startT) / segmentDuration
  let easing := seg.interpolation.getD Easing.linear
  let eased := apply_easing fns easing rawProgress segmentDuration
  let sx := centerX seg.startTransform
  let sy := centerY seg.startTransform
  let ex := centerX seg.endTransform
  let ey := centerY seg.endTransform
  let szoom := transformZoom seg.startTransform
  let ezoom := transformZoom seg.endTransform
  let zoom := szoom + (ezoom - szoom) * eased
  let x := sx + (ex - sx) * eased
  let y := sy + (ey - sy) * eased
  let p := clamp_center_for_zoom x y zoom
  ⟨t, p.1, p.2, zoom⟩

/-- One iteration of the sampling loop of
`sample_camera_from_segments` after the cursor advance: returns the
emitted sample together with the updated `previous` (which the
source mutates only in the active branch). -/
def segmentStepPair (fns : RealFns) (segs : List Segment) (t : ℚ) (i : Nat)
    (previous : CameraSample) : CameraSample × CameraSample :=
  if segs ≠ [] then
    let candidate := segs.getD i dfltSeg
    let start := candidate.startTime.getD 0
    let endT := candidate.endTime.getD 0
    let isLast := i = segs.length - 1
    if (start ≤ t ∧ t < endT) ∨ (isLast ∧ start ≤ t ∧ t ≤ endT) then
      let s := activeSample fns candidate t
      (s, s)
    else (⟨t, previous.x, previous.y, previous.zoom⟩, previous)
  else (⟨t, previous.x, previous.y, previous.zoom⟩, previous)

/-- The `for step in range(steps + 1)` loop of
`sample_camera_from_segments`; the first argument is the number of
remaining iterations. -/
def segmentsLoop (fns : RealFns) (segs : List Segment) (duration dt : ℚ) :
    Nat → Nat → Nat → CameraSample → List CameraSample
  | 0, _, _, _ => []
  | Nat.succ r, step, segIdx, previous =>
    let t := min duration (step * dt)
    let i := advanceIndex segs t segIdx
    let p := segmentStepPair fns segs t i previous
    p.1 :: segmentsLoop fns segs duration dt r (step + 1) i p.2

/-- Source `sample_camera_from_segments(segments, duration, sample_rate)`
from the source. -/
def sample_camera_from_segments (fns : RealFns) (segments : List Segment)
    (duration sample_rate : ℚ) : List CameraSample :=
  if duration ≤ 0 then []
  else
    let segs := segments.insertionSort
      (fun a b => a.startTime.getD 0 ≤ b.startTime.getD 0)
    let dt := 1 / max 1 sample_rate
    let steps := max 1 (⌈duration / dt⌉).toNat
    segmentsLoop fns segs duration dt (steps + 1) 0 0 ⟨0, 1/2, 1/2, 1⟩

/-- The binary search of `bisect.bisect_right`: maintain `lo < hi`,
probe `mid = (lo + hi) / 2`, descend left when `x < a[mid]`. -/
def bisectRightGo (l : List ℚ) (x : ℚ) (lo hi : Nat) : Nat :=
  if lo < hi then
    let mid := (lo + hi) / 2
    if x < l.getD mid 0 then bisectRightGo l x lo mid
    else bisectRightGo l x (mid + 1) hi
  else lo
termination_by hi - lo
decreasing_by
  · omega
  · omega

/-- Source `bisect.bisect_right(a, x)` over the whole list. -/
def bisectRight (l : List ℚ) (x : ℚ) : Nat :=
  bisectRightGo l x 0 l.length

/-- Source `interpolate_camera_sample(samples, time)` from the source.  The
source reads `samples[index - 1]` and `samples[index]`; in the branch
where those reads happen, `1 ≤ index ≤ len(samples) - 1` always holds
(shown in `bisectRight_pos`/`bisectRight_lt` below), so the
out-of-range `getD` defaults are never taken. -/
def interpolate_camera_sample (samples : List CameraSample) (time : ℚ) :
    CameraSample :=
  match samples with
  | [] => ⟨time, 1/2, 1/2, 1⟩
  | first :: rest =>
    if time ≤ first.time then first
    else if (samples.getLastD dfltCam).time ≤ time then samples.getLastD dfltCam
    else
      let times := (first :: rest).map (fun sample => sample.time)
      let index := bisectRight times time
      let left := samples.getD (index - 1) dfltCam
      let right := samples.getD index dfltCam
      let dt := right.time - left.time
      if dt ≤ 0 then left
      else
        let alpha := (time - left.time) / dt
        let zoom := left.zoom + (right.zoom - left.zoom) * alpha
        let x := left.x + (right.x - left.x) * alpha
        let y := left.y + (right.y - left.y) * alpha
        let p := clamp_center_for_zoom x y zoom
        ⟨time, p.1, p.2, zoom⟩

/-- A `{"time": …, "transform": …}` continuous-transform point. -/
structure ContinuousTransform where
  time : Option ℚ
  transform : Option Transform
deriving Repr, DecidableEq

/-- The construction and sort of `source_samples` in
`sample_camera_from_continuous_transforms`. -/
def sourceSamples (transforms : List ContinuousTransform) : List CameraSample :=
  (transforms.map (fun item =>
    ({ time := item.time.getD 0
       x := centerX item.transform
       y := centerY item.transform
       zoom := transformZoom item.transform } : CameraSample))).insertionSort
    (fun a b => a.time ≤ b.time)

/-- Source `sample_camera_from_continuous_transforms(transforms, duration,
sample_rate)` from the source. -/
def sample_camera_from_continuous_transforms
    (transforms : List ContinuousTransform) (duration sample_rate : ℚ) :
    List CameraSample :=
  let src := sourceSamples transforms
  if src.length < 2 then src
  else
    let dt := 1 / max 1 sample_rate
    let steps := max 1 (⌈duration / dt⌉).toNat
    (List.range (steps + 1)).map
      (fun step : Nat => interpolate_camera_sample src (min duration ((step : ℚ) * dt)))

/-- An episode dictionary `{"start", "end", "settle", "target_end"}`;
`stop` stands for the Python key `"end"` (a reserved word in Lean). -/
structure Episode where
  start : Nat
  stop : Nat
  settle : Int
  targetEnd : Nat
deriving Repr, DecidableEq

/-- The inner `while` of `detect_movement_episodes` extending a
moving run: while `index + 1 < len(moving)` and `moving[index + 1]`,
advance. -/
def runEnd (moving : List Bool) (i : Nat) : Nat :=
  if i + 1 < moving.length ∧ moving.getD (i + 1) false then runEnd moving (i + 1)
  else i
termination_by moving.length - i

/-- The moving-run end never precedes its start. -/
theorem runEnd_ge (moving : List Bool) (i : Nat) : i ≤ runEnd moving i := by
  unfold runEnd
  split
  · have ih := runEnd_ge moving (i + 1)
    omega
  · exact Nat.le_refl i
termination_by moving.length - i
decreasing_by omega

/-- The four settle conditions at one camera index (source lines
522–532 resp. 538–547).  The source compares
`math.hypot(dx, dy) ≤ 0.01`; over `ℚ` this is embedded as the
equivalent `dx² + dy² ≤ 0.01²` (both sides are non-negative). -/
def settleConditions (camera : List CameraSample) (dynamics : List DynamicsSample)
    (targetX targetY targetZoom : ℚ) (idx : Nat) : Bool :=
  let lcl := camera.getD idx dfltCam
  let lclDyn := dynamics.getD (min idx (dynamics.length - 1)) dfltDyn
  let distSq := (lcl.x - targetX) * (lcl.x - targetX) + (lcl.y - targetY) * (lcl.y - targetY)
  let zoomDelta := |lcl.zoom - targetZoom|
  decide (distSq ≤ (1/100) * (1/100)) && decide (zoomDelta ≤ 1/50) &&
    decide (lclDyn.pan_speed ≤ 3/250) && decide (lclDyn.zoom_speed ≤ 1/20)

/-- The settle-candidate predicate: the conditions hold at the
candidate and at every hold offset `1, …, settle_hold_count - 1`. -/
def settleStable (camera : List CameraSample) (dynamics : List DynamicsSample)
    (targetX targetY targetZoom : ℚ) (settleHold : Nat) (candidate : Nat) : Bool :=
  settleConditions camera dynamics targetX targetY targetZoom candidate &&
    (List.range' 1 (settleHold - 1)).all
      (fun holdOffset => settleConditions camera dynamics targetX targetY targetZoom
        (candidate + holdOffset))

/-- Source `lookahead_count = max(1, round(0.25 / max(dt, 1e-3)))`. -/
def lookaheadCount (dt : ℚ) : Nat :=
  max 1 (pyround ((1/4) / max dt (1/1000))).toNat

/-- Source `target_end = min(len(camera) - 1, end + 1 + lookahead_count)`. -/
def targetEndAt (camera : List CameraSample) (dt : ℚ) (stop : Nat) : Nat :=
  min (camera.length - 1) (stop + 1 + lookaheadCount dt)

/-- The look-ahead window `camera[end+1 : target_end+1]`, or the
single sample `[camera[end+1]]` when the slice would be reversed. -/
def windowAt (camera : List CameraSample) (dt : ℚ) (stop : Nat) : List CameraSample :=
  if stop + 1 ≤ targetEndAt camera dt stop then
    (camera.take (targetEndAt camera dt stop + 1)).drop (stop + 1)
  else [camera.getD (stop + 1) dfltCam]

/-- The settle-index search for one episode: target means over the
look-ahead window, candidates scanned from `min(end+1, len-1)` up to
`len(camera) - settle_hold_count - 1`; `-1` when none qualifies. -/
def settleIdxAt (camera : List CameraSample) (dynamics : List DynamicsSample)
    (dt : ℚ) (settleHold : Nat) (stop : Nat) : Int :=
  let window := windowAt camera dt stop
  let targetX := (window.map (fun item => item.x)).sum / window.length
  let targetY := (window.map (fun item => item.y)).sum / window.length
  let targetZoom := (window.map (fun item => item.zoom)).sum / window.length
  let searchStart := min (stop + 1) (camera.length - 1)
  match (List.range' searchStart (camera.length - settleHold - searchStart)).find?
      (fun c => settleStable camera dynamics targetX targetY targetZoom settleHold c) with
  | some c => (c : Int)
  | none => -1

/-- The outer `while index < len(moving)` loop of
`detect_movement_episodes`. -/
def detectLoop (camera : List CameraSample) (dynamics : List DynamicsSample)
    (moving : List Bool) (dt : ℚ) (settleHold : Nat) (index : Nat) : List Episode :=
  if hidx : index < moving.length then
    if moving.getD index false = false then
      detectLoop camera dynamics moving dt settleHold (index + 1)
    else
      let stop := runEnd moving index
      if windowAt camera dt stop = [] then
        detectLoop camera dynamics moving dt settleHold (stop + 1)
      else
        { start := index, stop := stop,
          settle := settleIdxAt camera dynamics dt settleHold stop,
          targetEnd := targetEndAt camera dt stop } ::
          detectLoop camera dynamics moving dt settleHold (stop + 1)
  else []
termination_by moving.length - index
decreasing_by
  all_goals (have h := runEnd_ge moving index; omega)

/-- Source `detect_movement_episodes(camera, dynamics, dt)` from the source.
The moving mask compares `pan_speed > 0.015` and
`zoom_speed > 0.08`. -/
def detect_movement_episodes (camera : List CameraSample)
    (dynamics : List DynamicsSample) (dt : ℚ) : List Episode :=
  if dynamics = [] then []
  else
    let moving := dynamics.map
      (fun sample => decide (sample.pan_speed > 3/200) || decide (sample.zoom_speed > 2/25))
    let settleHold := max 3 (pyround ((1/5) / max dt (1/1000))).toNat
    detectLoop camera dynamics moving dt settleHold 0

/-- A `frameAnalysisCache` entry.  Optional fields model
`item.get(key, default)` (defaults `False`, `1.0`, `0.0`). -/
structure Frame where
  time : Option ℚ
  isScrolling : Option Bool
  changeAmount : Option ℚ
  similarity : Option ℚ
deriving Repr, DecidableEq

/-- The strict candidate filter of
`compute_readability_retention_score`: not scrolling,
`changeAmount < 0.12`, `similarity > 0.85`. -/
def strictCandidates (frameAnalysis : List Frame) : List Frame :=
  frameAnalysis.filter (fun item =>
    !(item.isScrolling.getD false) && decide (item.changeAmount.getD 1 < 3/25) &&
      decide (item.similarity.getD 0 > 17/20))

/-- The relaxed candidate filter: not scrolling,
`changeAmount < 0.18`. -/
def relaxedCandidates (frameAnalysis : List Frame) : List Frame :=
  frameAnalysis.filter (fun item =>
    !(item.isScrolling.getD false) && decide (item.changeAmount.getD 1 < 9/50))

/-- Candidate-time selection of
`compute_readability_retention_score` (source lines 667–690).  The
downstream score loop reads candidates only through
`float(frame.get("time", 0.0))`, so candidates are embedded as their
list of times; the fallback constructs `{"time": (duration /
sample_count) * index}` dictionaries, whose times appear directly. -/
def readabilityCandidateTimes (frameAnalysis : List Frame)
    (camera : List CameraSample) : List ℚ :=
  let cands := strictCandidates frameAnalysis
  let cands := if cands = [] then relaxedCandidates frameAnalysis else cands
  if cands = [] then
    let duration := (camera.getLastD dfltCam).time
    let sampleCount := max 1 (pytrunc duration).toNat
    (List.range (sampleCount + 1)).map
      (fun index : Nat => duration / (sampleCount : ℚ) * (index : ℚ))
  else cands.map (fun frame => frame.time.getD 0)

/-- Source `compare_metric(value, operator, threshold)` from the source;
`none` models the raised `ValueError` for unsupported operators. -/
def compare_metric (value : ℚ) (operator : String) (threshold : ℚ) : Option Bool :=
  if operator = "<=" then some (decide (value ≤ threshold))
  else if operator = "<" then some (decide (value < threshold))
  else if operator = ">=" then some (decide (value ≥ threshold))
  else if operator = ">" then some (decide (value > threshold))
  else none

/-- A `metricGates` entry `{operator, threshold}`; optional fields
model `gate.get("operator", "<=")` and `gate.get("threshold", 0.0)`. -/
structure GateSpec where
  operator : Option String
  threshold : Option ℚ
deriving Repr, DecidableEq

/-- Source `metrics.get(metric_name)`: a missing key and a stored null both
read as null.  Metric tables are embedded as association lists with
the six metric keys in insertion order. -/
def gateValue (metrics : List (String × Option ℚ)) (name : String) : Option ℚ :=
  (List.lookup name metrics).join

/-- The `for metric_name, gate in gate_definitions.items()` loop of
`evaluate_gates`, threading `results`, `has_failure` and
`has_evaluated`; `none` models an escaping `ValueError` from
`compare_metric`. -/
def evalGatesGo (metrics : List (String × Option ℚ)) :
    List (String × GateSpec) → List (String × String) → Bool → Bool →
    Option (List (String × String) × Bool × Bool)
  | [], results, hasFailure, hasEvaluated => some (results, hasFailure, hasEvaluated)
  | (name, gate) :: rest, results, hasFailure, hasEvaluated =>
    match gateValue metrics name with
    | none =>
      evalGatesGo metrics rest (results ++ [(name, "insufficient_data")]) hasFailure hasEvaluated
    | some value =>
      match compare_metric value (gate.operator.getD "<=") (gate.threshold.getD 0) with
      | none => none
      | some passed =>
        evalGatesGo metrics rest (results ++ [(name, if passed then "pass" else "fail")])
          (hasFailure || !passed) true

/-- Source `evaluate_gates(metrics, gates)` from the source, taking the
`metricGates` table directly: per-metric results in iteration order,
and the overall verdict (`none` when nothing was evaluated). -/
def evaluate_gates (metrics : List (String × Option ℚ))
    (gateDefs : List (String × GateSpec)) :
    Option (List (String × String) × Option Bool) :=
  match evalGatesGo metrics gateDefs [] false false with
  | none => none
  | some (results, hasFailure, hasEvaluated) =>
    if hasEvaluated = false then some (results, none)
    else some (results, some (!hasFailure))

/-- The six metric keys of the table built by `evaluate_metrics`
(source lines 753–760). -/
def metricNames : List String :=
  ["transition_settling_time_p95_sec", "overshoot_ratio_p95", "camera_jerk_p95",
    "camera_jerk_p99", "cursor_camera_alignment_error_p95",
    "text_readability_retention_score"]

/-- C9: Metric comparison raises an error exactly when the gate
operator is not one of `<`, `<=`, `>`, `>=`; for every value and
threshold, a supported operator never raises and returns the boolean
result of the corresponding comparison. -/
theorem compare_metric_error_iff_unsupported :
    ∀ (value threshold : ℚ) (operator : String),
      (compare_metric value operator threshold = none ↔
        operator ≠ "<" ∧ operator ≠ "<=" ∧ operator ≠ ">" ∧ operator ≠ ">=") ∧
      compare_metric value "<" threshold = some (decide (value < threshold)) ∧
      compare_metric value "<=" threshold = some (decide (value ≤ threshold)) ∧
      compare_metric value ">" threshold = some (decide (value > threshold)) ∧
      compare_metric value ">=" threshold = some (decide (value ≥ threshold)) := by
  intro value threshold operator
  refine ⟨?_, by simp [compare_metric], by simp [compare_metric],
    by simp [compare_metric], by simp [compare_metric]⟩
  unfold compare_metric
  split_ifs with h1 h2 h3 h4 <;> simp_all

/-- Witness for the iff direction of
`compare_metric_error_iff_unsupported` at a concrete unsupported
operator and a concrete supported comparison. -/
theorem compare_metric_error_witness :
    compare_metric 1 "between" 2 = none ∧ compare_metric 1 "<" 2 = some true := by
  constructor
  · exact (compare_metric_error_iff_unsupported 1 2 "between").1.mpr
      (by refine ⟨?_, ?_, ?_, ?_⟩ <;> decide)
  · have h := (compare_metric_error_iff_unsupported 1 2 "<").2.1
    rw [h]
    norm_num

/-- Whether a gate entry's configured metric has a non-null value. -/
def entryEvaluated (metrics : List (String × Option ℚ)) (p : String × GateSpec) : Bool :=
  (gateValue metrics p.1).isSome

/-- Whether a gate entry evaluates to an explicit failure. -/
def entryFailed (metrics : List (String × Option ℚ)) (p : String × GateSpec) : Bool :=
  match gateValue metrics p.1 with
  | some v => decide
      (compare_metric v (p.2.operator.getD "<=") (p.2.threshold.getD 0) = some false)
  | none => false

/-- The per-entry result string recorded by the gate loop. -/
def entryOutcome (metrics : List (String × Option ℚ)) (p : String × GateSpec) : String :=
  match gateValue metrics p.1 with
  | none => "insufficient_data"
  | some v =>
    match compare_metric v (p.2.operator.getD "<=") (p.2.threshold.getD 0) with
    | some true => "pass"
    | _ => "fail"

/-- Characterization of a successful run of the gate loop. -/
theorem evalGatesGo_some_spec (metrics : List (String × Option ℚ)) :
    ∀ (gs : List (String × GateSpec)) (res : List (String × String)) (hf he : Bool)
      (out : List (String × String) × Bool × Bool),
      evalGatesGo metrics gs res hf he = some out →
      out.1 = res ++ gs.map (fun p => (p.1, entryOutcome metrics p)) ∧
      out.2.1 = (hf || gs.any (entryFailed metrics)) ∧
      out.2.2 = (he || gs.any (entryEvaluated metrics)) ∧
      ∀ p ∈ gs, ∀ v, gateValue metrics p.1 = some v →
        (compare_metric v (p.2.operator.getD "<=") (p.2.threshold.getD 0)).isSome := by
  intro gs
  induction gs with
  | nil =>
    intro res hf he out hout
    simp only [evalGatesGo] at hout
    cases hout
    simp
  | cons head rest ih =>
    intro res hf he out hout
    obtain ⟨name, gate⟩ := head
    simp only [evalGatesGo] at hout
    cases hval : gateValue metrics name with
    | none =>
      rw [hval] at hout
      obtain ⟨h1, h2, h3, h4⟩ := ih _ _ _ _ hout
      refine ⟨by simp [h1, entryOutcome, hval], ?_, ?_, ?_⟩
      · simp [h2, entryFailed, hval]
      · simp [h3, entryEvaluated, hval]
      · intro p hp v hv
        rcases List.mem_cons.mp hp with hp | hp
        · subst hp
          simp only at hv
          rw [hval] at hv
          cases hv
        · exact h4 p hp v hv
    | some value =>
      rw [hval] at hout
      simp only at hout
      cases hcmp : compare_metric value (gate.operator.getD "<=") (gate.threshold.getD 0) with
      | none =>
        rw [hcmp] at hout
        cases hout
      | some passed =>
        rw [hcmp] at hout
        simp only at hout
        obtain ⟨h1, h2, h3, h4⟩ := ih _ _ _ _ hout
        have houtc : entryOutcome metrics (name, gate) = if passed = true then "pass" else "fail" := by
          unfold entryOutcome
          simp only
          rw [hval]
          simp only
          rw [hcmp]
          cases passed <;> simp
        have hfailc : entryFailed metrics (name, gate) = !passed := by
          unfold entryFailed
          simp only
          rw [hval]
          simp only
          rw [hcmp]
          cases passed <;> simp
        have hevalc : entryEvaluated metrics (name, gate) = true := by
          unfold entryEvaluated
          simp only
          rw [hval]
          rfl
        refine ⟨?_, ?_, ?_, ?_⟩
        · rw [h1, List.map_cons, houtc]
          simp
        · rw [h2, List.any_cons, hfailc]
          cases passed <;> cases hf <;> simp
        · rw [h3, List.any_cons, hevalc]
          simp
        · intro p hp v hv
          rcases List.mem_cons.mp hp with hp | hp
          · subst hp
            simp only at hv
            rw [hval] at hv
            cases hv
            simp [hcmp]
          · exact h4 p hp v hv

/-- A gate entry over a null metric is recorded as insufficient data. -/
theorem entryOutcome_of_none (metrics : List (String × Option ℚ))
    (p : String × GateSpec) (h : gateValue metrics p.1 = none) :
    entryOutcome metrics p = "insufficient_data" := by
  unfold entryOutcome
  rw [h]

/-- An entry fails exactly when its metric is non-null and the
comparison returns an explicit failure. -/
theorem entryFailed_true_iff (metrics : List (String × Option ℚ))
    (p : String × GateSpec) :
    entryFailed metrics p = true ↔
      ∃ v, gateValue metrics p.1 = some v ∧
        compare_metric v (p.2.operator.getD "<=") (p.2.threshold.getD 0) = some false := by
  unfold entryFailed
  cases h : gateValue metrics p.1 with
  | none => simp [h]
  | some v => simp [h]

/-- C4: in gate evaluation, each configured metric whose value is
null gets result `"insufficient_data"` and does not contribute to
the overall verdict; the verdict is undetermined exactly when no
configured metric was evaluated, and otherwise is pass iff every
evaluated metric passed; in particular an overall fail requires an
explicitly failing evaluated metric, so null metrics never cause an
overall fail. -/
theorem evaluate_gates_null_metrics_and_verdict :
    ∀ (metrics : List (String × Option ℚ)) (gateDefs : List (String × GateSpec))
      (results : List (String × String)) (overall : Option Bool),
      evaluate_gates metrics gateDefs = some (results, overall) →
      (∀ p ∈ gateDefs, gateValue metrics p.1 = none →
        (p.1, "insufficient_data") ∈ results) ∧
      ((overall = none) ↔ ∀ p ∈ gateDefs, gateValue metrics p.1 = none) ∧
      (∀ b, overall = some b →
        (b = true ↔ ∀ p ∈ gateDefs, ∀ v, gateValue metrics p.1 = some v →
          compare_metric v (p.2.operator.getD "<=") (p.2.threshold.getD 0) = some true)) ∧
      (overall = some false → ∃ p ∈ gateDefs, ∃ v, gateValue metrics p.1 = some v ∧
        compare_metric v (p.2.operator.getD "<=") (p.2.threshold.getD 0) = some false) := by
  intro metrics gateDefs results overall hev
  unfold evaluate_gates at hev
  cases hgo : evalGatesGo metrics gateDefs [] false false with
  | none =>
    rw [hgo] at hev
    cases hev
  | some out =>
    obtain ⟨res0, hf0, he0⟩ := out
    rw [hgo] at hev
    simp only at hev
    obtain ⟨h1, h2, h3, h4⟩ := evalGatesGo_some_spec metrics gateDefs [] false false _ hgo
    simp only [List.nil_append, Bool.false_or] at h1 h2 h3
    have hmemI : ∀ p ∈ gateDefs, gateValue metrics p.1 = none →
        (p.1, "insufficient_data") ∈ results := by
      intro p hp hpv
      have hres : results = res0 := by
        by_cases hhe : he0 = false <;> simp [hhe] at hev <;> exact hev.1.symm
      rw [hres, h1]
      have := entryOutcome_of_none metrics p hpv
      rw [← this]
      exact List.mem_map_of_mem _ hp
    by_cases hhe : he0 = false
    · rw [if_pos hhe] at hev
      simp only [Option.some.injEq, Prod.mk.injEq] at hev
      obtain ⟨hres, hover⟩ := hev
      subst hres
      have hall : ∀ p ∈ gateDefs, gateValue metrics p.1 = none := by
        have hany : gateDefs.any (entryEvaluated metrics) = false := by
          rw [← h3, hhe]
        intro p hp
        have := List.any_eq_false.mp hany p hp
        unfold entryEvaluated at this
        simpa [Option.not_isSome_iff_eq_none] using this
      refine ⟨hmemI, ?_, ?_, ?_⟩
      · rw [← hover]
        exact ⟨fun _ => hall, fun _ => rfl⟩
      · intro b hb
        rw [← hover] at hb
        cases hb
      · intro hb
        rw [← hover] at hb
        cases hb
    · rw [if_neg hhe] at hev
      simp only [Option.some.injEq, Prod.mk.injEq] at hev
      obtain ⟨hres, hover⟩ := hev
      subst hres
      have hevtrue : he0 = true := by
        cases he0
        · exact absurd rfl hhe
        · rfl
      refine ⟨hmemI, ?_, ?_, ?_⟩
      · constructor
        · intro hnone
          rw [← hover] at hnone
          cases hnone
        · intro hall
          exfalso
          have : gateDefs.any (entryEvaluated metrics) = true := by
            rw [← h3, hevtrue]
          obtain ⟨p, hp, hpe⟩ := List.any_eq_true.mp this
          unfold entryEvaluated at hpe
          rw [hall p hp] at hpe
          cases hpe
      · intro b hb
        rw [← hover] at hb
        have hbval : b = !hf0 := by
          cases hb
          rfl
        subst hbval
        constructor
        · intro hbt p hp v hpv
          have hfl : hf0 = false := by
            cases hf0
            · rfl
            · cases hbt
          have hany : gateDefs.any (entryFailed metrics) = false := by
            rw [← h2, hfl]
          have hnf := List.any_eq_false.mp hany p hp
          have hsome := h4 p hp v hpv
          cases hcmp : compare_metric v (p.2.operator.getD "<=") (p.2.threshold.getD 0) with
          | none =>
            rw [hcmp] at hsome
            cases hsome
          | some pb =>
            cases pb
            · exfalso
              exact hnf ((entryFailed_true_iff metrics p).mpr ⟨v, hpv, hcmp⟩)
            · rfl
        · intro hall
          cases hf : hf0
          · rfl
          · exfalso
            have : gateDefs.any (entryFailed metrics) = true := by
              rw [← h2, hf]
            obtain ⟨p, hp, hpf⟩ := List.any_eq_true.mp this
            obtain ⟨v, hpv, hcmp⟩ := (entryFailed_true_iff metrics p).mp hpf
            have := hall p hp v hpv
            rw [this] at hcmp
            cases hcmp
      · intro hfail
        rw [← hover] at hfail
        have hf : hf0 = true := by
          cases hf0
          · cases hfail
          · rfl
        have : gateDefs.any (entryFailed metrics) = true := by
          rw [← h2, hf]
        obtain ⟨p, hp, hpf⟩ := List.any_eq_true.mp this
        obtain ⟨v, hpv, hcmp⟩ := (entryFailed_true_iff metrics p).mp hpf
        exact ⟨p, hp, v, hpv, hcmp⟩

/-- Witness applying `evaluate_gates_null_metrics_and_verdict` to a
concrete table: one passing metric and one null metric, whose entry
is recorded as insufficient data while the verdict stays pass. -/
theorem evaluate_gates_null_metrics_witness :
    ("overshoot_ratio_p95", "insufficient_data") ∈
      [("camera_jerk_p95", "pass"), ("overshoot_ratio_p95", "insufficient_data")] := by
  have heval : evaluate_gates
      [("camera_jerk_p95", some (1 : ℚ)), ("overshoot_ratio_p95", none)]
      [("camera_jerk_p95", ⟨some "<=", some 2⟩), ("overshoot_ratio_p95", ⟨some "<=", some 1⟩)] =
      some ([("camera_jerk_p95", "pass"), ("overshoot_ratio_p95", "insufficient_data")],
        some true) := by
    simp [evaluate_gates, evalGatesGo, gateValue, compare_metric, List.lookup]
  have h := evaluate_gates_null_metrics_and_verdict
    [("camera_jerk_p95", some (1 : ℚ)), ("overshoot_ratio_p95", none)]
    [("camera_jerk_p95", ⟨some "<=", some 2⟩), ("overshoot_ratio_p95", ⟨some "<=", some 1⟩)]
    [("camera_jerk_p95", "pass"), ("overshoot_ratio_p95", "insufficient_data")]
    (some true) heval
  exact h.1 ("overshoot_ratio_p95", ⟨some "<=", some 1⟩) (by simp)
    (by simp [gateValue, List.lookup])

/-- The gate loop escapes with an error exactly when some entry has a
non-null metric and an unsupported operator. -/
theorem evalGatesGo_eq_none_iff (metrics : List (String × Option ℚ)) :
    ∀ (gs : List (String × GateSpec)) (res : List (String × String)) (hf he : Bool),
      evalGatesGo metrics gs res hf he = none ↔
        ∃ p ∈ gs, ∃ v, gateValue metrics p.1 = some v ∧
          compare_metric v (p.2.operator.getD "<=") (p.2.threshold.getD 0) = none := by
  intro gs
  induction gs with
  | nil =>
    intro res hf he
    simp [evalGatesGo]
  | cons head rest ih =>
    intro res hf he
    obtain ⟨name, gate⟩ := head
    simp only [evalGatesGo]
    cases hval : gateValue metrics name with
    | none =>
      rw [ih]
      constructor
      · intro ⟨p, hp, v, hv, hc⟩
        exact ⟨p, List.mem_cons_of_mem _ hp, v, hv, hc⟩
      · intro ⟨p, hp, v, hv, hc⟩
        rcases List.mem_cons.mp hp with hp | hp
        · subst hp
          simp only at hv
          rw [hval] at hv
          cases hv
        · exact ⟨p, hp, v, hv, hc⟩
    | some value =>
      simp only
      cases hcmp : compare_metric value (gate.operator.getD "<=") (gate.threshold.getD 0) with
      | none =>
        simp only
        constructor
        · intro _
          exact ⟨(name, gate), List.mem_cons_self _ _, value, hval, hcmp⟩
        · intro _
          trivial
      | some passed =>
        simp only
        rw [ih]
        constructor
        · intro ⟨p, hp, v, hv, hc⟩
          exact ⟨p, List.mem_cons_of_mem _ hp, v, hv, hc⟩
        · intro ⟨p, hp, v, hv, hc⟩
          rcases List.mem_cons.mp hp with hp | hp
          · subst hp
            simp only at hv
            rw [hval] at hv
            cases hv
            rw [hcmp] at hc
            cases hc
          · exact ⟨p, hp, v, hv, hc⟩

/-- A key absent from an association list looks up to `none`. -/
theorem lookup_none_of_not_key {β : Type} (l : List (String × β)) (k : String)
    (h : k ∉ l.map Prod.fst) : List.lookup k l = none := by
  induction l with
  | nil => rfl
  | cons head rest ih =>
    simp only [List.map_cons, List.mem_cons] at h
    push_neg at h
    simp only [List.lookup]
    have hne : (k == head.1) = false := by
      simp [h.1]
    rw [hne]
    exact ih h.2

/-- C10: a gate entry whose metric name is not one of the six
computed metric names is marked `"insufficient_data"` and never
affects the overall verdict. -/
theorem evaluate_gates_unknown_metric_insufficient :
    ∀ (metrics : List (String × Option ℚ)) (name : String) (gate : GateSpec)
      (pre suf : List (String × GateSpec)),
      (∀ k ∈ metrics.map Prod.fst, k ∈ metricNames) → name ∉ metricNames →
      (Option.map (fun out => out.2) (evaluate_gates metrics (pre ++ (name, gate) :: suf)) =
        Option.map (fun out => out.2) (evaluate_gates metrics (pre ++ suf))) ∧
      ∀ results overall,
        evaluate_gates metrics (pre ++ (name, gate) :: suf) = some (results, overall) →
        (name, "insufficient_data") ∈ results := by
  intro metrics name gate pre suf hkeys hname
  have hval : gateValue metrics name = none := by
    unfold gateValue
    rw [lookup_none_of_not_key metrics name (fun hmem => hname (hkeys name hmem))]
    rfl
  have hEvalMid : entryEvaluated metrics (name, gate) = false := by
    unfold entryEvaluated
    simp only
    rw [hval]
    rfl
  have hFailMid : entryFailed metrics (name, gate) = false := by
    unfold entryFailed
    simp only
    rw [hval]
  have hbad : ∀ (res : List (String × String)) (hf he : Bool),
      evalGatesGo metrics (pre ++ (name, gate) :: suf) res hf he = none ↔
      evalGatesGo metrics (pre ++ suf) res hf he = none := by
    intro res hf he
    rw [evalGatesGo_eq_none_iff, evalGatesGo_eq_none_iff]
    constructor
    · intro ⟨p, hp, v, hv, hc⟩
      rcases List.mem_append.mp hp with hp | hp
      · exact ⟨p, List.mem_append_left _ hp, v, hv, hc⟩
      · rcases List.mem_cons.mp hp with hp | hp
        · subst hp
          simp only at hv
          rw [hval] at hv
          cases hv
        · exact ⟨p, List.mem_append_right _ hp, v, hv, hc⟩
    · intro ⟨p, hp, v, hv, hc⟩
      rcases List.mem_append.mp hp with hp | hp
      · exact ⟨p, List.mem_append_left _ hp, v, hv, hc⟩
      · exact ⟨p, List.mem_append_right _ (List.mem_cons_of_mem _ hp), v, hv, hc⟩
  constructor
  · unfold evaluate_gates
    cases hgoL : evalGatesGo metrics (pre ++ (name, gate) :: suf) [] false false with
    | none =>
      have hgoR : evalGatesGo metrics (pre ++ suf) [] false false = none :=
        (hbad [] false false).mp hgoL
      rw [hgoR]
    | some outL =>
      cases hgoR : evalGatesGo metrics (pre ++ suf) [] false false with
      | none =>
        exfalso
        have := (hbad [] false false).mpr hgoR
        rw [hgoL] at this
        cases this
      | some outR =>
        obtain ⟨resL, hfL, heL⟩ := outL
        obtain ⟨resR, hfR, heR⟩ := outR
        obtain ⟨-, hL2, hL3, -⟩ := evalGatesGo_some_spec metrics _ [] false false _ hgoL
        obtain ⟨-, hR2, hR3, -⟩ := evalGatesGo_some_spec metrics _ [] false false _ hgoR
        simp only [Bool.false_or] at hL2 hL3 hR2 hR3
        have hfeq : hfL = hfR := by
          rw [hL2, hR2, List.any_append, List.any_append, List.any_cons, hFailMid]
          simp
        have heeq : heL = heR := by
          rw [hL3, hR3, List.any_append, List.any_append, List.any_cons, hEvalMid]
          simp
        subst hfeq
        subst heeq
        simp only
        by_cases hhe : heL = false
        · rw [if_pos hhe, if_pos hhe]
          rfl
        · rw [if_neg hhe, if_neg hhe]
          rfl
  · intro results overall hev
    unfold evaluate_gates at hev
    cases hgoL : evalGatesGo metrics (pre ++ (name, gate) :: suf) [] false false with
    | none =>
      rw [hgoL] at hev
      cases hev
    | some outL =>
      obtain ⟨resL, hfL, heL⟩ := outL
      rw [hgoL] at hev
      simp only at hev
      obtain ⟨h1, -, -, -⟩ := evalGatesGo_some_spec metrics _ [] false false _ hgoL
      simp only [List.nil_append] at h1
      have hres : results = resL := by
        by_cases hhe : heL = false
        · rw [if_pos hhe] at hev
          simp only [Option.some.injEq, Prod.mk.injEq] at hev
          exact hev.1.symm
        · rw [if_neg hhe] at hev
          simp only [Option.some.injEq, Prod.mk.injEq] at hev
          exact hev.1.symm
      rw [hres, h1]
      have hmid : entryOutcome metrics (name, gate) = "insufficient_data" :=
        entryOutcome_of_none metrics (name, gate) hval
    
      rw [List.map_append, List.map_cons]
      refine List.mem_append_right _ ?_
      rw [hmid]
      exact List.mem_cons_self _ _

/-- Witness applying `evaluate_gates_unknown_metric_insufficient` to
a concrete table with a single unknown gate name. -/
theorem evaluate_gates_unknown_metric_witness :
    ("frame_rate", "insufficient_data") ∈ [("frame_rate", "insufficient_data")] := by
  have h := evaluate_gates_unknown_metric_insufficient
    [("camera_jerk_p95", some (1 : ℚ))] "frame_rate" ⟨some "<=", some 0⟩ [] []
    (by
      intro k hk
      simp only [List.map_cons, List.map_nil, List.mem_singleton] at hk
      subst hk
      simp [metricNames])
    (by simp [metricNames])
  exact h.2 [("frame_rate", "insufficient_data")] none
    (by simp [evaluate_gates, evalGatesGo, gateValue, List.lookup])

/-- In a list sorted ascending, `getD` is monotone over in-range
indices. -/
theorem sorted_getD_mono (l : List ℚ) (hs : l.Sorted (· ≤ ·)) (i j : Nat)
    (hij : i ≤ j) (hj : j < l.length) : l.getD i 0 ≤ l.getD j 0 := by
  have hi : i < l.length := lt_of_le_of_lt hij hj
  rw [l.getD_eq_getElem 0 hi, l.getD_eq_getElem 0 hj]
  have := List.Sorted.rel_get_of_le hs (show (⟨i, hi⟩ : Fin l.length) ≤ ⟨j, hj⟩ from hij)
  simpa using this

/-- The interpolation value read off a sorted list at a real-valued
rank: `a⌊r⌋ + (r − ⌊r⌋)·(a⌊r⌋₊₁ − a⌊r⌋)`. -/
def rankInterp (l : List ℚ) (r : ℚ) : ℚ :=
  l.getD (⌊r⌋.toNat) 0 + (r - ⌊r⌋) * (l.getD (⌊r⌋.toNat + 1) 0 - l.getD (⌊r⌋.toNat) 0)

/-- The map `rankInterp` is monotone in the rank over `[0, n − 1]` for a
sorted list. -/
theorem rankInterp_mono (l : List ℚ) (hs : l.Sorted (· ≤ ·)) (r1 r2 : ℚ)
    (h0 : 0 ≤ r1) (h12 : r1 ≤ r2) (hn : r2 ≤ (l.length : ℚ) - 1) :
    rankInterp l r1 ≤ rankInterp l r2 := by
  have h02 : (0 : ℚ) ≤ r2 := le_trans h0 h12
  have hL1 : (0 : Int) ≤ ⌊r1⌋ := Int.floor_nonneg.mpr h0
  have hL2 : (0 : Int) ≤ ⌊r2⌋ := Int.floor_nonneg.mpr h02
  have hL12 : ⌊r1⌋ ≤ ⌊r2⌋ := Int.floor_le_floor h12
  have hlen1 : (1 : ℚ) ≤ (l.length : ℚ) := by
    have := le_trans h02 hn
    linarith
  have hlenN : 1 ≤ l.length := by exact_mod_cast hlen1
  have hL2lt : ⌊r2⌋.toNat < l.length := by
    have h1 : (⌊r2⌋ : ℚ) ≤ r2 := Int.floor_le r2
    have h2 : (⌊r2⌋ : ℚ) ≤ (l.length : ℚ) - 1 := le_trans h1 hn
    have h3 : ⌊r2⌋ ≤ (l.length : Int) - 1 := by exact_mod_cast h2
    omega
  have hw1lo : (0 : ℚ) ≤ r1 - ⌊r1⌋ := by
    have := Int.floor_le r1
    linarith
  have hw1hi : r1 - ⌊r1⌋ < 1 := by
    have := Int.lt_floor_add_one r1
    linarith
  have hw2lo : (0 : ℚ) ≤ r2 - ⌊r2⌋ := by
    have := Int.floor_le r2
    linarith
  rcases eq_or_lt_of_le hL12 with heq | hlt
  · by_cases hup : ⌊r1⌋.toNat + 1 < l.length
    · unfold rankInterp
      rw [← heq]
      have hmono : l.getD (⌊r1⌋.toNat) 0 ≤ l.getD (⌊r1⌋.toNat + 1) 0 :=
        sorted_getD_mono l hs _ _ (Nat.le_succ _) hup
      nlinarith [hmono, hw1lo, hw2lo, h12]
    · have htn : ⌊r1⌋.toNat = ⌊r2⌋.toNat := by rw [heq]
      have hlen_eq : l.length = ⌊r1⌋.toNat + 1 := by omega
      have hcast1 : ((⌊r1⌋.toNat : ℚ)) = ((⌊r1⌋ : Int) : ℚ) := by
        exact_mod_cast Int.toNat_of_nonneg hL1
      have hfq : ((⌊r1⌋ : Int) : ℚ) = (l.length : ℚ) - 1 := by
        rw [← hcast1, hlen_eq]
        push_cast
        ring
      have hr12 : r1 = r2 := by
        have ha : (⌊r1⌋ : ℚ) ≤ r1 := Int.floor_le r1
        have hb : r2 ≤ (⌊r1⌋ : ℚ) := by
          rw [hfq]
          exact hn
        linarith
      rw [hr12]
  · have hidx : ⌊r1⌋.toNat + 1 ≤ ⌊r2⌋.toNat := by omega
    have hup1 : ⌊r1⌋.toNat + 1 < l.length := lt_of_le_of_lt hidx hL2lt
    have hmono1 : l.getD (⌊r1⌋.toNat) 0 ≤ l.getD (⌊r1⌋.toNat + 1) 0 :=
      sorted_getD_mono l hs _ _ (Nat.le_succ _) hup1
    have hstep1 : rankInterp l r1 ≤ l.getD (⌊r1⌋.toNat + 1) 0 := by
      unfold rankInterp
      nlinarith [hmono1, hw1lo, hw1hi]
    have hstep2 : l.getD (⌊r1⌋.toNat + 1) 0 ≤ l.getD (⌊r2⌋.toNat) 0 :=
      sorted_getD_mono l hs _ _ hidx hL2lt
    have hstep3 : l.getD (⌊r2⌋.toNat) 0 ≤ rankInterp l r2 := by
      rcases eq_or_lt_of_le hw2lo with hw2z | hw2pos
      · unfold rankInterp
        rw [← hw2z]
        simp
      · have hL2top : ⌊r2⌋.toNat + 1 < l.length := by
          have h1 : (⌊r2⌋ : ℚ) < r2 := by
            have := Int.floor_le r2
            nlinarith [hw2pos]
          have h2 : (⌊r2⌋ : ℚ) < (l.length : ℚ) - 1 := lt_of_lt_of_le h1 hn
          have h3 : ⌊r2⌋ < (l.length : Int) - 1 := by exact_mod_cast h2
          omega
        have hmono2 : l.getD (⌊r2⌋.toNat) 0 ≤ l.getD (⌊r2⌋.toNat + 1) 0 :=
          sorted_getD_mono l hs _ _ (Nat.le_succ _) hL2top
        unfold rankInterp
        nlinarith [hmono2, hw2pos]
    exact le_trans hstep1 (le_trans hstep2 hstep3)

/-- On at least two elements, `percentile` computes exactly the rank
interpolation of the sorted list (both the integral-rank branch and
the interpolating branch collapse to `rankInterp`). -/
theorem percentile_eq_rankInterp : ∀ (values : List ℚ) (p : ℚ), values ≠ [] →
    2 ≤ (values.insertionSort (· ≤ ·)).length → 0 ≤ p →
    percentile values p = some (rankInterp (values.insertionSort (· ≤ ·))
      ((((values.insertionSort (· ≤ ·)).length : ℚ) - 1) * (p / 100))) := by
  intro values p hne hlen hp
  have hne1 : ¬ (values.insertionSort (· ≤ ·)).length = 1 := by omega
  simp only [percentile, if_neg hne, if_neg hne1]
  set ordered := values.insertionSort (· ≤ ·) with hord
  set rank : ℚ := ((ordered.length : ℚ) - 1) * (p / 100) with hrank
  have h2q : (2 : ℚ) ≤ (ordered.length : ℚ) := by exact_mod_cast hlen
  have hrank0 : 0 ≤ rank := by
    rw [hrank]
    have hq : (0:ℚ) ≤ p / 100 := by positivity
    nlinarith
  have hlo0 : (0 : Int) ≤ ⌊rank⌋ := Int.floor_nonneg.mpr hrank0
  by_cases hif : ⌊rank⌋ = ⌈rank⌉
  · rw [if_pos hif]
    have hint : (⌊rank⌋ : ℚ) = rank := by
      have h1 := Int.floor_le rank
      have h2 := Int.le_ceil rank
      rw [← hif] at h2
      exact le_antisymm h1 h2
    unfold rankInterp
    rw [hint]
    ring_nf
  · rw [if_neg hif]
    have hceil : ⌈rank⌉ = ⌊rank⌋ + 1 := by
      have h1 : ⌈rank⌉ ≤ ⌊rank⌋ + 1 := Int.ceil_le_floor_add_one rank
      have h2 : ⌊rank⌋ ≤ ⌈rank⌉ := Int.floor_le_ceil rank
      omega
    have htoNat : ⌈rank⌉.toNat = ⌊rank⌋.toNat + 1 := by omega
    rw [htoNat]
    unfold rankInterp
    congr 1
    ring

/-- C7: percentile is monotone in the percentage on every non-empty
list (ranks in `[0, n-1]` under `0 ≤ p1 ≤ p2 ≤ 100`); the empty list
yields null and a singleton yields its only element. -/
theorem percentile_monotone_and_edge_cases :
    (∀ p : ℚ, percentile [] p = none) ∧
    (∀ a p : ℚ, percentile [a] p = some a) ∧
    (∀ (xs : List ℚ) (p1 p2 : ℚ), xs ≠ [] → 0 ≤ p1 → p1 ≤ p2 → p2 ≤ 100 →
      ∃ v1 v2, percentile xs p1 = some v1 ∧ percentile xs p2 = some v2 ∧ v1 ≤ v2) := by
  refine ⟨fun p => by simp [percentile], ?_, ?_⟩
  · intro a p
    simp [percentile, List.insertionSort, List.orderedInsert]
  · intro xs p1 p2 hne hp1 h12 hp2
    have hlenpos : 0 < (xs.insertionSort (· ≤ ·)).length := by
      rw [List.length_insertionSort]
      exact List.length_pos.mpr hne
    by_cases hone : (xs.insertionSort (· ≤ ·)).length = 1
    · refine ⟨(xs.insertionSort (· ≤ ·)).getD 0 0, (xs.insertionSort (· ≤ ·)).getD 0 0,
        ?_, ?_, le_refl _⟩
      · simp only [percentile, if_neg hne, if_pos hone]
      · simp only [percentile, if_neg hne, if_pos hone]
    · have hlen2 : 2 ≤ (xs.insertionSort (· ≤ ·)).length := by omega
      have hp02 : (0:ℚ) ≤ p2 := le_trans hp1 h12
      have hb1 := percentile_eq_rankInterp xs p1 hne hlen2 hp1
      have hb2 := percentile_eq_rankInterp xs p2 hne hlen2 hp02
      refine ⟨_, _, hb1, hb2, ?_⟩
      have hsorted : (xs.insertionSort (· ≤ ·)).Sorted (· ≤ ·) :=
        List.sorted_insertionSort (· ≤ ·) xs
      have h2q : (2:ℚ) ≤ ((xs.insertionSort (· ≤ ·)).length : ℚ) := by exact_mod_cast hlen2
      refine rankInterp_mono _ hsorted _ _ ?_ ?_ ?_
      · nlinarith [hp1, h2q]
      · have hc : (0:ℚ) ≤ (((xs.insertionSort (· ≤ ·)).length : ℚ) - 1) / 100 := by
          nlinarith
        nlinarith [h12, hc]
      · have hle1 : p2 / 100 ≤ 1 := by linarith
        nlinarith [hle1, h2q]

/-- Witness applying `percentile_monotone_and_edge_cases` at the
concrete list `[3, 1, 2]` and percentages `25 ≤ 75`. -/
theorem percentile_monotone_witness :
    ∃ v1 v2, percentile [3, 1, 2] 25 = some v1 ∧ percentile [3, 1, 2] 75 = some v2 ∧
      v1 ≤ v2 :=
  percentile_monotone_and_edge_cases.2.2 [3, 1, 2] 25 75 (by simp) (by norm_num)
    (by norm_num) (by norm_num)

/-- The map `bezier_x` vanishes at `0`. -/
theorem bezier_x_zero (p1x p2x : ℚ) : bezier_x 0 p1x p2x = 0 := by
  norm_num [bezier_x]

/-- The map `bezier_x` is `1` at `1`. -/
theorem bezier_x_one (p1x p2x : ℚ) : bezier_x 1 p1x p2x = 1 := by
  norm_num [bezier_x]

/-- The map `bezier_y` vanishes at `0`. -/
theorem bezier_y_zero (p1y p2y : ℚ) : bezier_y 0 p1y p2y = 0 := by
  norm_num [bezier_y]

/-- The map `bezier_y` is `1` at `1`. -/
theorem bezier_y_one (p1y p2y : ℚ) : bezier_y 1 p1y p2y = 1 := by
  norm_num [bezier_y]

/-- The Newton iteration is stationary once the tolerance test
already holds at the iterate. -/
theorem bezierNewton_done (t p1x p2x x : ℚ)
    (h : |bezier_x x p1x p2x - t| < 1/10000) :
    ∀ n, bezierNewton t p1x p2x n x = x := by
  intro n
  cases n with
  | zero => rfl
  | succ m =>
    unfold bezierNewton
    rw [if_pos h]

/-- The map `cubic_bezier_value` at progress `0` is exactly `0`. -/
theorem cubic_bezier_value_zero (p1x p1y p2x p2y : ℚ) :
    cubic_bezier_value 0 p1x p1y p2x p2y = 0 := by
  unfold cubic_bezier_value
  rw [bezierNewton_done 0 p1x p2x 0 (by rw [bezier_x_zero]; norm_num)]
  exact bezier_y_zero p1y p2y

/-- The map `cubic_bezier_value` at progress `1` is exactly `1`. -/
theorem cubic_bezier_value_one (p1x p1y p2x p2y : ℚ) :
    cubic_bezier_value 1 p1x p1y p2x p2y = 1 := by
  unfold cubic_bezier_value
  rw [bezierNewton_done 1 p1x p2x 1 (by rw [bezier_x_one]; norm_num)]
  exact bezier_y_one p1y p2y

/-- The spring raw value is exactly `0` at time `0`, given the values
of the real transcendental functions at `0`. -/
theorem spring_raw_value_zero (fns : RealFns) (zeta omega : ℚ)
    (hexp : fns.fexp 0 = 1) (hcos : fns.fcos 0 = 1) (hsin : fns.fsin 0 = 0) :
    spring_raw_value fns zeta omega 0 = 0 := by
  unfold spring_raw_value
  split_ifs with h
  · simp [hexp]
  · simp [hexp, hcos, hsin]

/-- C8: for every easing descriptor (linear, easeIn, easeOut,
easeInOut, cubicBezier, spring — and unknown tags, which degrade to
linear) and every segment duration, the applied easing yields
`e(0) = 0` and `e(1) = 1` exactly (hence within `1e-4`); when the
spring normalization denominator degenerates
(`|end_value| < 1e-6`), the fallback to linear preserves the
endpoints exactly.  The hypotheses state the values the real
transcendental functions take at `0`. -/
theorem apply_easing_endpoints :
    ∀ (fns : RealFns) (easing : Easing) (duration : ℚ),
      fns.fexp 0 = 1 → fns.fcos 0 = 1 → fns.fsin 0 = 0 →
      apply_easing fns easing 0 duration = 0 ∧
      apply_easing fns easing 1 duration = 1 := by
  intro fns easing duration hexp hcos hsin
  have hc0 : clamp 0 0 1 = 0 := by norm_num [clamp]
  have hc1 : clamp 1 0 1 = 1 := by norm_num [clamp]
  constructor
  · unfold apply_easing
    rw [hc0]
    cases easing with
    | linear => exact hc0
    | easeIn => norm_num [clamp]
    | easeOut => norm_num [clamp]
    | easeInOut => norm_num [clamp]
    | cubicBezier p1x p1y p2x p2y =>
      simp only [cubic_bezier_value_zero]
      exact hc0
    | spring damping response =>
      simp only [zero_mul]
      rw [spring_raw_value_zero fns _ _ hexp hcos hsin]
      split_ifs with h
      · exact hc0
      · rw [zero_div]
        exact hc0
    | other => exact hc0
  · unfold apply_easing
    rw [hc1]
    cases easing with
    | linear => exact hc1
    | easeIn => norm_num [clamp]
    | easeOut => norm_num [clamp]
    | easeInOut => norm_num [clamp]
    | cubicBezier p1x p1y p2x p2y =>
      simp only [cubic_bezier_value_one]
      exact hc1
    | spring damping response =>
      simp only [one_mul]
      split_ifs with h
      · exact hc1
      · have hne : spring_raw_value fns (damping.getD 1)
            (2 * fns.fpi / max (1/100) (response.getD (4/5)))
            (max duration (1/1000)) ≠ 0 := by
          intro h0
          rw [h0] at h
          norm_num at h
        rw [div_self hne]
        exact hc1
    | other => exact hc1

/-- Witness applying `apply_easing_endpoints` at the concrete
transcendental stand-in `stubFns` and a spring easing. -/
theorem apply_easing_endpoints_witness :
    apply_easing stubFns (Easing.spring none none) 0 2 = 0 ∧
    apply_easing stubFns (Easing.spring none none) 1 2 = 1 :=
  apply_easing_endpoints stubFns (Easing.spring none none) 2 rfl rfl rfl

/-- A moving run that starts in bounds ends in bounds. -/
theorem runEnd_lt (moving : List Bool) (i : Nat) (h : i < moving.length) :
    runEnd moving i < moving.length := by
  unfold runEnd
  split
  · next hcond => exact runEnd_lt moving (i + 1) hcond.1
  · exact h
termination_by moving.length - i
decreasing_by omega

/-- A non-negative settle index is bounded below by the search
start. -/
theorem settleIdxAt_lower (camera : List CameraSample) (dynamics : List DynamicsSample)
    (dt : ℚ) (settleHold stop : Nat) :
    0 ≤ settleIdxAt camera dynamics dt settleHold stop →
    ((min (stop + 1) (camera.length - 1) : Nat) : Int) ≤
      settleIdxAt camera dynamics dt settleHold stop := by
  unfold settleIdxAt
  simp only
  split
  · next c hc =>
    intro _
    have hmem := List.mem_of_find?_eq_some hc
    have hge := (List.mem_range'_1.mp hmem).1
    exact_mod_cast hge
  · intro h
    norm_num at h

/-- Index invariant of the episode-detection loop, under the pipeline
fact that the dynamics (hence the moving mask) is strictly shorter
than the camera trajectory. -/
theorem detectLoop_invariant (camera : List CameraSample)
    (dynamics : List DynamicsSample) (moving : List Bool) (dt : ℚ) (settleHold : Nat)
    (hlen : moving.length + 1 ≤ camera.length) :
    ∀ (fuel index : Nat), moving.length - index ≤ fuel →
      ∀ ep ∈ detectLoop camera dynamics moving dt settleHold index,
        ep.start ≤ ep.stop ∧ ep.stop < ep.targetEnd ∧
        (0 ≤ ep.settle → (ep.stop : Int) < ep.settle) := by
  intro fuel
  induction fuel with
  | zero =>
    intro index hfuel ep hep
    rw [detectLoop] at hep
    rw [dif_neg (by omega : ¬ index < moving.length)] at hep
    cases hep
  | succ fuel ih =>
    intro index hfuel ep hep
    rw [detectLoop] at hep
    by_cases hidx : index < moving.length
    · rw [dif_pos hidx] at hep
      by_cases hmov : moving.getD index false = false
      · rw [if_pos hmov] at hep
        exact ih (index + 1) (by omega) ep hep
      · rw [if_neg hmov] at hep
        simp only at hep
        have hge := runEnd_ge moving index
        have hlt := runEnd_lt moving index hidx
        by_cases hw : windowAt camera dt (runEnd moving index) = []
        · rw [if_pos hw] at hep
          exact ih (runEnd moving index + 1) (by omega) ep hep
        · rw [if_neg hw] at hep
          rcases List.mem_cons.mp hep with heq | hmem
          · subst heq
            refine ⟨hge, ?_, ?_⟩
            · simp only
              unfold targetEndAt lookaheadCount
              omega
            · simp only
              intro hset
              have hlow := settleIdxAt_lower camera dynamics dt settleHold
                (runEnd moving index) hset
              have hmin : min (runEnd moving index + 1) (camera.length - 1) =
                  runEnd moving index + 1 := by omega
              rw [hmin] at hlow
              omega
          · exact ih (runEnd moving index + 1) (by omega) ep hmem
    · rw [dif_neg hidx] at hep
      cases hep

/-- C5: every episode emitted by the episode detector satisfies
`start ≤ end < target_end`, and a non-negative settle index always
exceeds the episode end.  The hypothesis
`dynamics.length + 1 ≤ camera.length` records how the pipeline calls
the detector: `compute_dynamics` always yields one dynamics sample
per consecutive camera pair. -/
theorem detect_movement_episodes_invariant :
    ∀ (camera : List CameraSample) (dynamics : List DynamicsSample) (dt : ℚ),
      dynamics.length + 1 ≤ camera.length →
      ∀ ep ∈ detect_movement_episodes camera dynamics dt,
        ep.start ≤ ep.stop ∧ ep.stop < ep.targetEnd ∧
        (0 ≤ ep.settle → (ep.stop : Int) < ep.settle) := by
  intro camera dynamics dt hlen ep hep
  unfold detect_movement_episodes at hep
  split_ifs at hep with hdyn
  · cases hep
  · have hmovlen : (dynamics.map
        (fun sample => decide (sample.pan_speed > 3/200) ||
          decide (sample.zoom_speed > 2/25))).length = dynamics.length :=
      List.length_map _ _
    exact detectLoop_invariant camera dynamics _ dt _ (by rw [hmovlen]; exact hlen)
      (dynamics.length) 0 (by omega) ep hep

/-- Witness applying `detect_movement_episodes_invariant` to a
concrete two-sample trajectory with one moving dynamics sample. -/
theorem detect_movement_episodes_witness :
    (⟨0, 0, -1, 1⟩ : Episode).start ≤ (⟨0, 0, -1, 1⟩ : Episode).stop ∧
    (⟨0, 0, -1, 1⟩ : Episode).stop < (⟨0, 0, -1, 1⟩ : Episode).targetEnd ∧
    (0 ≤ (⟨0, 0, -1, 1⟩ : Episode).settle →
      ((⟨0, 0, -1, 1⟩ : Episode).stop : Int) < (⟨0, 0, -1, 1⟩ : Episode).settle) := by
  have hpy5 : pyround ((1/5) / max (1:ℚ) (1/1000)) = 0 := by
    have hm : max (1:ℚ) (1/1000) = 1 := by norm_num
    rw [hm]
    norm_num [pyround, Int.floor_eq_iff]
  have hpy4 : pyround ((1/4) / max (1:ℚ) (1/1000)) = 0 := by
    have hm : max (1:ℚ) (1/1000) = 1 := by norm_num
    rw [hm]
    norm_num [pyround, Int.floor_eq_iff]
  have heval : detect_movement_episodes
      [⟨0, 1/2, 1/2, 1⟩, ⟨1, 1/2, 1/2, 1⟩] [⟨0, 1, 0, 0⟩] 1 = [⟨0, 0, -1, 1⟩] := by
    rw [detect_movement_episodes]
    rw [if_neg (by simp)]
    simp only [List.map_cons, List.map_nil, List.length_cons, List.length_nil, hpy5]
    norm_num
    rw [detectLoop]
    rw [dif_pos (by norm_num)]
    rw [if_neg (by norm_num)]
    simp only
    have hrun : runEnd [true] 0 = 0 := by
      rw [runEnd]
      rw [if_neg (by norm_num)]
    rw [hrun]
    have htarget : targetEndAt [⟨0, 1/2, 1/2, 1⟩, ⟨1, 1/2, 1/2, 1⟩] 1 0 = 1 := by
      rw [targetEndAt, lookaheadCount, hpy4]
      norm_num
    have hwindow : windowAt [⟨0, 1/2, 1/2, 1⟩, ⟨1, 1/2, 1/2, 1⟩] 1 0 =
        [⟨1, 1/2, 1/2, 1⟩] := by
      rw [windowAt, htarget]
      norm_num
    rw [if_neg (by rw [hwindow]; simp)]
    have hsettle : settleIdxAt [⟨0, 1/2, 1/2, 1⟩, ⟨1, 1/2, 1/2, 1⟩] [⟨0, 1, 0, 0⟩]
        1 3 0 = -1 := by
      rw [settleIdxAt]
      simp only [List.length_cons, List.length_nil]
      norm_num
    rw [hsettle, htarget]
    rw [detectLoop]
    rw [dif_neg (by norm_num)]
  have h := detect_movement_episodes_invariant
    [⟨0, 1/2, 1/2, 1⟩, ⟨1, 1/2, 1/2, 1⟩] [⟨0, 1, 0, 0⟩] 1 (by simp)
    ⟨0, 0, -1, 1⟩ (by rw [heval]; exact List.mem_singleton_self _)
  exact h

/-- The center-clamp invariant of the spec: when `zoom > 1` the
visible window `[x − 0.5/zoom, x + 0.5/zoom] × [y − …, y + …]` lies
inside the unit square, i.e. both coordinates lie in
`[0.5/zoom, 1 − 0.5/zoom]`. -/
def inWindow (s : CameraSample) : Prop :=
  (1/2) / s.zoom ≤ s.x ∧ s.x ≤ 1 - (1/2) / s.zoom ∧
  (1/2) / s.zoom ≤ s.y ∧ s.y ≤ 1 - (1/2) / s.zoom

/-- The map `clamp_center_for_zoom` lands in `[0.5/zoom, 1 − 0.5/zoom]` on
both axes whenever `zoom > 1`. -/
theorem clamp_center_for_zoom_bounds (x y zoom : ℚ) (h : 1 < zoom) :
    (1/2) / zoom ≤ (clamp_center_for_zoom x y zoom).1 ∧
    (clamp_center_for_zoom x y zoom).1 ≤ 1 - (1/2) / zoom ∧
    (1/2) / zoom ≤ (clamp_center_for_zoom x y zoom).2 ∧
    (clamp_center_for_zoom x y zoom).2 ≤ 1 - (1/2) / zoom := by
  unfold clamp_center_for_zoom
  rw [if_neg (not_le.mpr h)]
  have hmax : max zoom 1 = zoom := max_eq_left (le_of_lt h)
  rw [hmax]
  simp only [clamp]
  have h0 : (0:ℚ) < zoom := by linarith
  have hhalf : (1/2) / zoom ≤ 1 - (1/2) / zoom := by
    have h1 : (1/2) / zoom ≤ 1/2 := by
      rw [div_le_iff₀ h0]
      nlinarith
    linarith
  refine ⟨le_max_left _ _, max_le hhalf (min_le_left _ _),
    le_max_left _ _, max_le hhalf (min_le_left _ _)⟩

/-- A sample produced by the active branch satisfies the window
invariant whenever its zoom exceeds 1. -/
theorem activeSample_inWindow (fns : RealFns) (seg : Segment) (t : ℚ)
    (h : 1 < (activeSample fns seg t).zoom) : inWindow (activeSample fns seg t) := by
  unfold activeSample at h ⊢
  simp only at h ⊢
  exact clamp_center_for_zoom_bounds _ _ _ h

/-- One sampling step either emits the active-branch sample (also
becoming the new `previous`) or re-emits the previous coordinates at
the current time, leaving `previous` unchanged. -/
theorem segmentStepPair_cases (fns : RealFns) (segs : List Segment) (t : ℚ)
    (i : Nat) (prev : CameraSample) :
    segmentStepPair fns segs t i prev =
      (activeSample fns (segs.getD i dfltSeg) t, activeSample fns (segs.getD i dfltSeg) t) ∨
    segmentStepPair fns segs t i prev =
      (⟨t, prev.x, prev.y, prev.zoom⟩, prev) := by
  unfold segmentStepPair
  split_ifs with h1
  · simp only
    split_ifs with h2
    · left
      rfl
    · right
      rfl
  · right
    rfl

/-- The sampling loop preserves the window invariant: every emitted
sample with zoom above 1 lies in the window, provided the running
`previous` satisfies the same property. -/
theorem segmentsLoop_inWindow (fns : RealFns) (segs : List Segment)
    (duration dt : ℚ) :
    ∀ (r step i : Nat) (prev : CameraSample), (1 < prev.zoom → inWindow prev) →
      ∀ s ∈ segmentsLoop fns segs duration dt r step i prev,
        1 < s.zoom → inWindow s := by
  intro r
  induction r with
  | zero =>
    intro step i prev hprev s hs
    cases hs
  | succ r ih =>
    intro step i prev hprev s hs
    rw [segmentsLoop] at hs
    rcases List.mem_cons.mp hs with heq | hmem
    · subst heq
      rcases segmentStepPair_cases fns segs (min duration (step * dt))
        (advanceIndex segs (min duration (step * dt)) i) prev with hcase | hcase
      · rw [hcase]
        intro hz
        exact activeSample_inWindow fns _ _ hz
      · rw [hcase]
        intro hz
        simp only [inWindow] at hprev ⊢
        exact hprev hz
    · refine ih (step + 1) _ _ ?_ s hmem
      rcases segmentStepPair_cases fns segs (min duration (step * dt))
        (advanceIndex segs (min duration (step * dt)) i) prev with hcase | hcase
      · rw [hcase]
        intro hz
        exact activeSample_inWindow fns _ _ hz
      · rw [hcase]
        exact hprev

/-- The last element (with default) of a non-empty list is a member. -/
theorem getLastD_mem {α : Type} (l : List α) (d : α) (h : l ≠ []) :
    l.getLastD d ∈ l := by
  induction l with
  | nil => exact absurd rfl h
  | cons a t ih =>
    cases t with
    | nil => simp
    | cons b t2 =>
      rw [List.getLastD_cons]
      exact List.mem_cons_of_mem a (ih (by simp))

/-- Every sample returned by `interpolate_camera_sample` with zoom
above 1 either satisfies the window invariant (the clamped
interior-interpolation branch) or is returned verbatim from the
source list (first/last saturation and the degenerate-bracket
branch). -/
theorem interpolate_camera_sample_inWindow_or_mem (samples : List CameraSample)
    (time : ℚ) :
    1 < (interpolate_camera_sample samples time).zoom →
    inWindow (interpolate_camera_sample samples time) ∨
      interpolate_camera_sample samples time ∈ samples := by
  cases samples with
  | nil =>
    intro h
    unfold interpolate_camera_sample at h
    norm_num at h
  | cons first rest =>
    unfold interpolate_camera_sample
    simp only
    split_ifs with h1 h2 h3
    · intro _
      exact Or.inr (List.mem_cons_self _ _)
    · intro _
      exact Or.inr (getLastD_mem _ _ (by simp))
    · intro hz
      by_cases hidx : bisectRight ((first :: rest).map (fun sample => sample.time))
          time - 1 < (first :: rest).length
      · right
        rw [(first :: rest).getD_eq_getElem dfltCam hidx]
        exact List.getElem_mem hidx
      · exfalso
        rw [List.getD_eq_default _ _ (Nat.le_of_not_lt hidx)] at hz
        norm_num [dfltCam] at hz
    · intro hz
      left
      exact clamp_center_for_zoom_bounds _ _ _ hz

/-- C1 (amended): every sample emitted by segment sampling with
`zoom > 1` lies in the window `[0.5/zoom, 1 − 0.5/zoom]²`; every
sample emitted by continuous-transform sampling with `zoom > 1`
either lies in that window or is one of the (unclamped) sorted
source samples, returned verbatim at saturated or degenerate
times. -/
theorem camera_sample_window_invariant :
    (∀ (fns : RealFns) (segments : List Segment) (duration sample_rate : ℚ),
      ∀ s ∈ sample_camera_from_segments fns segments duration sample_rate,
        1 < s.zoom → inWindow s) ∧
    (∀ (transforms : List ContinuousTransform) (duration sample_rate : ℚ),
      ∀ s ∈ sample_camera_from_continuous_transforms transforms duration sample_rate,
        1 < s.zoom → inWindow s ∨ s ∈ sourceSamples transforms) := by
  constructor
  · intro fns segments duration sample_rate s hs hz
    unfold sample_camera_from_segments at hs
    split_ifs at hs with hdur
    · cases hs
    · refine segmentsLoop_inWindow fns _ duration _ _ 0 0 _ ?_ s hs hz
      intro h
      norm_num at h
  · intro transforms duration sample_rate s hs hz
    unfold sample_camera_from_continuous_transforms at hs
    simp only at hs
    split_ifs at hs with hlen
    · exact Or.inr hs
    · rw [List.mem_map] at hs
      obtain ⟨k, hk, hks⟩ := hs
      subst hks
      exact interpolate_camera_sample_inWindow_or_mem _ _ hz

/-- Counterexample to C1 as stated: with continuous transforms whose
first source point has center x = 0 at zoom 2, the sample emitted at
t = 0 is the saturated (unclamped) source point, so its x lies
strictly below 0.5/zoom and the visible window leaves `[0,1]²`. -/
theorem continuous_saturation_counterexample :
    (⟨0, 0, 1/2, 2⟩ : CameraSample) ∈ sample_camera_from_continuous_transforms
      [⟨some 0, some ⟨some ⟨some 0, some (1/2)⟩, some 2⟩⟩,
       ⟨some 1, some ⟨some ⟨some (1/2), some (1/2)⟩, some 2⟩⟩] 1 1 ∧
    1 < (⟨0, 0, 1/2, 2⟩ : CameraSample).zoom ∧
    (⟨0, 0, 1/2, 2⟩ : CameraSample).x <
      (1/2) / (⟨0, 0, 1/2, 2⟩ : CameraSample).zoom := by
  have hsrc : sourceSamples
      [⟨some 0, some ⟨some ⟨some 0, some (1/2)⟩, some 2⟩⟩,
       ⟨some 1, some ⟨some ⟨some (1/2), some (1/2)⟩, some 2⟩⟩] =
      [⟨0, 0, 1/2, 2⟩, ⟨1, 1/2, 1/2, 2⟩] := by
    unfold sourceSamples
    simp [List.insertionSort, List.orderedInsert, centerX, centerY, transformZoom]
  have h0 : interpolate_camera_sample
      [(⟨0, 0, 1/2, 2⟩ : CameraSample), ⟨1, 1/2, 1/2, 2⟩] 0 = ⟨0, 0, 1/2, 2⟩ := by
    unfold interpolate_camera_sample
    simp only
    rw [if_pos (by norm_num)]
  have h1 : interpolate_camera_sample
      [(⟨0, 0, 1/2, 2⟩ : CameraSample), ⟨1, 1/2, 1/2, 2⟩] 1 = ⟨1, 1/2, 1/2, 2⟩ := by
    unfold interpolate_camera_sample
    simp only
    rw [if_neg (by norm_num)]
    rw [if_pos (by simp [List.getLastD])]
    simp [List.getLastD]
  have heval : sample_camera_from_continuous_transforms
      [⟨some 0, some ⟨some ⟨some 0, some (1/2)⟩, some 2⟩⟩,
       ⟨some 1, some ⟨some ⟨some (1/2), some (1/2)⟩, some 2⟩⟩] 1 1 =
      [⟨0, 0, 1/2, 2⟩, ⟨1, 1/2, 1/2, 2⟩] := by
    unfold sample_camera_from_continuous_transforms
    rw [hsrc]
    simp only
    rw [if_neg (by norm_num)]
    have hsteps : max 1 (Int.toNat ⌈(1:ℚ) / ((1:ℚ) / max 1 1)⌉) = 1 := by norm_num
    rw [hsteps]
    have hrange : List.range (1 + 1) = [0, 1] := by decide
    rw [hrange]
    simp only [List.map_cons, List.map_nil]
    have hm0 : min (1:ℚ) ((0:Nat) * ((1:ℚ) / max 1 1)) = 0 := by norm_num
    have hm1 : min (1:ℚ) ((1:Nat) * ((1:ℚ) / max 1 1)) = 1 := by norm_num
    rw [hm0, hm1, h0, h1]
  refine ⟨?_, by norm_num, by norm_num⟩
  rw [heval]
  exact List.mem_cons_self _ _

/-- Witness applying `camera_sample_window_invariant` to a concrete
single-point continuous input, whose output is the source list
itself. -/
theorem camera_sample_window_invariant_witness :
    inWindow (⟨0, 0, 1/2, 2⟩ : CameraSample) ∨
      (⟨0, 0, 1/2, 2⟩ : CameraSample) ∈ sourceSamples
        [⟨some 0, some ⟨some ⟨some 0, some (1/2)⟩, some 2⟩⟩] := by
  have hsrc : sourceSamples [⟨some 0, some ⟨some ⟨some 0, some (1/2)⟩, some 2⟩⟩] =
      [⟨0, 0, 1/2, 2⟩] := by
    unfold sourceSamples
    simp [List.insertionSort, List.orderedInsert, centerX, centerY, transformZoom]
  have hout : sample_camera_from_continuous_transforms
      [⟨some 0, some ⟨some ⟨some 0, some (1/2)⟩, some 2⟩⟩] 1 1 = [⟨0, 0, 1/2, 2⟩] := by
    unfold sample_camera_from_continuous_transforms
    rw [hsrc]
    simp only
    rw [if_pos (by norm_num)]
  refine camera_sample_window_invariant.2
    [⟨some 0, some ⟨some ⟨some 0, some (1/2)⟩, some 2⟩⟩] 1 1
    ⟨0, 0, 1/2, 2⟩ ?_ (by norm_num)
  rw [hout]
  exact List.mem_cons_self _ _

/-- The emitted sample of one loop step carries the queried time. -/
theorem segmentStepPair_time (fns : RealFns) (segs : List Segment) (t : ℚ)
    (i : Nat) (prev : CameraSample) : (segmentStepPair fns segs t i prev).1.time = t := by
  rcases segmentStepPair_cases fns segs t i prev with h | h
  · rw [h]
    rfl
  · rw [h]

/-- The sampling loop emits exactly one sample per iteration. -/
theorem segmentsLoop_length (fns : RealFns) (segs : List Segment)
    (duration dt : ℚ) :
    ∀ (r step i : Nat) (prev : CameraSample),
      (segmentsLoop fns segs duration dt r step i prev).length = r := by
  intro r
  induction r with
  | zero =>
    intro step i prev
    rfl
  | succ r ih =>
    intro step i prev
    rw [segmentsLoop]
    simp only [List.length_cons]
    rw [ih]

/-- The emitted times of the loop are `min(duration, (step+j)·dt)`. -/
theorem segmentsLoop_times (fns : RealFns) (segs : List Segment)
    (duration dt : ℚ) :
    ∀ (r step i : Nat) (prev : CameraSample),
      (segmentsLoop fns segs duration dt r step i prev).map (fun s => s.time) =
      (List.range r).map
        (fun j : Nat => min duration (((step + j : Nat) : ℚ) * dt)) := by
  intro r
  induction r with
  | zero =>
    intro step i prev
    rfl
  | succ r ih =>
    intro step i prev
    rw [segmentsLoop, List.map_cons, segmentStepPair_time, ih (step + 1)]
    rw [List.range_succ_eq_map]
    simp only [List.map_cons, List.map_map]
    refine congrArg₂ _ (by norm_num) ?_
    refine List.map_congr_left ?_
    intro j _
    simp only [Function.comp]
    have hcast : ((step + 1 + j : Nat) : ℚ) = ((step + Nat.succ j : Nat) : ℚ) := by
      push_cast
      ring
    rw [hcast]

/-- For positive duration the step count computed through
`dt = 1/max(1, rate)` equals `⌈duration · max(1, rate)⌉`. -/
theorem steps_eq (duration sample_rate : ℚ) (hd : 0 < duration) :
    max 1 (⌈duration / (1 / max 1 sample_rate)⌉).toNat =
      (⌈duration * max 1 sample_rate⌉).toNat := by
  have hm : (0:ℚ) < max 1 sample_rate := lt_of_lt_of_le one_pos (le_max_left 1 sample_rate)
  have hdiv : duration / (1 / max 1 sample_rate) = duration * max 1 sample_rate := by
    field_simp
  rw [hdiv]
  have hpos : (0:ℚ) < duration * max 1 sample_rate := mul_pos hd hm
  have hceil : 0 < ⌈duration * max 1 sample_rate⌉ := Int.ceil_pos.mpr hpos
  omega

/-- C2 (amended): with `D > 0`, both samplers emit exactly
`⌈D·max(1,R)⌉ + 1` samples (the code clamps the effective rate to at
least 1).  The segment path stamps the strictly increasing times
`min(D, k/max(1,R))`; the continuous path emits, for each `k`, the
interpolation of the sorted source at query time
`min(D, k/max(1,R))` — whose recorded time saturates to the source
range, so the emitted times need not be the query times. -/
theorem trajectory_sample_count_and_times :
    (∀ (fns : RealFns) (segments : List Segment) (duration sample_rate : ℚ),
      0 < duration →
      (sample_camera_from_segments fns segments duration sample_rate).length =
        (⌈duration * max 1 sample_rate⌉).toNat + 1 ∧
      (sample_camera_from_segments fns segments duration sample_rate).map
          (fun s => s.time) =
        (List.range ((⌈duration * max 1 sample_rate⌉).toNat + 1)).map
          (fun k : Nat => min duration ((k : ℚ) / max 1 sample_rate)) ∧
      ((sample_camera_from_segments fns segments duration sample_rate).map
          (fun s => s.time)).Pairwise (· < ·)) ∧
    (∀ (transforms : List ContinuousTransform) (duration sample_rate : ℚ),
      0 < duration → 2 ≤ (sourceSamples transforms).length →
      sample_camera_from_continuous_transforms transforms duration sample_rate =
        (List.range ((⌈duration * max 1 sample_rate⌉).toNat + 1)).map
          (fun k : Nat => interpolate_camera_sample (sourceSamples transforms)
            (min duration ((k : ℚ) / max 1 sample_rate)))) := by
  constructor
  · intro fns segments duration sample_rate hd
    have hm : (0:ℚ) < max 1 sample_rate := lt_of_lt_of_le one_pos (le_max_left 1 sample_rate)
    have hsteps : ∀ a : Nat,
        a < (⌈duration * max 1 sample_rate⌉).toNat →
        (a : ℚ) * (1 / max 1 sample_rate) < duration := by
      intro a ha
      have h1 : (a : Int) < ⌈duration * max 1 sample_rate⌉ := by omega
      have h2 : (a : ℚ) < duration * max 1 sample_rate := by
        have := Int.lt_ceil.mp h1
        exact_mod_cast this
      rw [mul_one_div, div_lt_iff₀ hm]
      exact h2
    unfold sample_camera_from_segments
    rw [if_neg (not_le.mpr hd)]
    simp only
    refine ⟨?_, ?_, ?_⟩
    · rw [segmentsLoop_length, steps_eq duration sample_rate hd]
    · rw [segmentsLoop_times, steps_eq duration sample_rate hd]
      refine List.map_congr_left ?_
      intro j _
      simp only [Nat.zero_add]
      rw [mul_one_div]
    · rw [segmentsLoop_times]
      rw [List.pairwise_map]
      refine (List.pairwise_lt_range _).imp_of_mem ?_
      intro a b ha hb hab
      rw [List.mem_range] at ha hb
      rw [steps_eq duration sample_rate hd] at hb
      simp only [Nat.zero_add]
      have hbb : b ≤ (⌈duration * max 1 sample_rate⌉).toNat := by omega
      have hadlt : (a : ℚ) * (1 / max 1 sample_rate) < duration := by
        refine hsteps a (by omega)
      have habq : (a : ℚ) * (1 / max 1 sample_rate) <
          (b : ℚ) * (1 / max 1 sample_rate) := by
        have hdt : (0:ℚ) < 1 / max 1 sample_rate := by positivity
        have : (a : ℚ) < (b : ℚ) := by exact_mod_cast hab
        exact mul_lt_mul_of_pos_right this hdt
      rw [min_eq_right (le_of_lt hadlt)]
      exact lt_min hadlt habq
  · intro transforms duration sample_rate hd hlen
    unfold sample_camera_from_continuous_transforms
    simp only
    rw [if_neg (not_lt.mpr hlen)]
    rw [steps_eq duration sample_rate hd]
    refine List.map_congr_left ?_
    intro k _
    rw [mul_one_div]

/-- Counterexample to C2 as stated: (i) at sampling rate `R = 1/2`
and duration `D = 2` the segment sampler emits 3 samples, not
`⌈D·R⌉ + 1 = 2` (the code clamps the rate to at least 1); (ii) with
continuous transforms at source times 5 and 6 and `D = 10`, `R = 1`,
the first emitted sample's time is the saturated source time 5, not
`min(D, 0/R) = 0`. -/
theorem trajectory_sample_count_counterexample :
    ((sample_camera_from_segments stubFns
        [⟨some 0, some 2, none, none, none⟩] 2 (1/2)).length = 3 ∧
      ¬ (3 = (⌈(2:ℚ) * (1/2)⌉).toNat + 1)) ∧
    ((sample_camera_from_continuous_transforms
        [⟨some 5, none⟩, ⟨some 6, none⟩] 10 1).getD 0 dfltCam).time = 5 ∧
      min (10:ℚ) ((0:ℚ) / 1) = 0 ∧ (5:ℚ) ≠ 0 := by
  refine ⟨⟨?_, by norm_num [Int.ceil_eq_iff]⟩, ?_, by norm_num, by norm_num⟩
  · unfold sample_camera_from_segments
    rw [if_neg (by norm_num)]
    simp only
    rw [segmentsLoop_length]
    have hm : max (1:ℚ) (1/2) = 1 := by norm_num
    rw [hm]
    have hc : ⌈(2:ℚ) / (1/1)⌉ = 2 := by norm_num [Int.ceil_eq_iff]
    rw [hc]
    decide
  · have hsrc : sourceSamples [⟨some 5, none⟩, ⟨some 6, none⟩] =
        [⟨5, 1/2, 1/2, 1⟩, ⟨6, 1/2, 1/2, 1⟩] := by
      unfold sourceSamples
      simp [List.insertionSort, List.orderedInsert, centerX, centerY, transformZoom]
      norm_num
    have hinterp : interpolate_camera_sample
        [(⟨5, 1/2, 1/2, 1⟩ : CameraSample), ⟨6, 1/2, 1/2, 1⟩] 0 = ⟨5, 1/2, 1/2, 1⟩ := by
      unfold interpolate_camera_sample
      simp only
      rw [if_pos (by norm_num)]
    unfold sample_camera_from_continuous_transforms
    rw [hsrc]
    simp only
    rw [if_neg (by norm_num)]
    have hsteps : max 1 (⌈(10:ℚ) / (1 / max 1 1)⌉).toNat = 10 := by
      have hc : ⌈(10:ℚ) / (1 / max 1 1)⌉ = 10 := by norm_num [Int.ceil_eq_iff]
      rw [hc]
      decide
    rw [hsteps]
    rw [List.range_succ_eq_map]
    simp only [List.map_cons, List.getD_cons_zero]
    have hmin : min (10:ℚ) (((0:Nat) : ℚ) * (1 / max 1 1)) = 0 := by norm_num
    rw [hmin, hinterp]

/-- Witness applying `trajectory_sample_count_and_times` to the
segment sampler with no segments, duration 1 and rate 1. -/
theorem trajectory_sample_count_witness :
    (sample_camera_from_segments stubFns [] 1 1).length =
      (⌈(1:ℚ) * max 1 1⌉).toNat + 1 ∧
    (sample_camera_from_segments stubFns [] 1 1).map (fun s => s.time) =
      (List.range ((⌈(1:ℚ) * max 1 1⌉).toNat + 1)).map
        (fun k : Nat => min 1 ((k : ℚ) / max 1 1)) ∧
    ((sample_camera_from_segments stubFns [] 1 1).map (fun s => s.time)).Pairwise
      (· < ·) :=
  trajectory_sample_count_and_times.1 stubFns [] 1 1 (by norm_num)

/-- C3 (amended): when neither the strict nor the relaxed filter
yields candidates, the fallback produces exactly
`max(1, int(D)) + 1` evenly-spaced candidate times
`(D / max(1, int(D))) · k` over the trajectory duration
`D = camera[-1].time` (Python `int(·)` truncates, so for
non-integral `D` this is `⌊D⌋ + 1` points, not `⌈D⌉ + 1`). -/
theorem readability_fallback_count :
    ∀ (frameAnalysis : List Frame) (camera : List CameraSample),
      strictCandidates frameAnalysis = [] → relaxedCandidates frameAnalysis = [] →
      readabilityCandidateTimes frameAnalysis camera =
        (List.range (max 1 (pytrunc (camera.getLastD dfltCam).time).toNat + 1)).map
          (fun index : Nat => (camera.getLastD dfltCam).time /
            ((max 1 (pytrunc (camera.getLastD dfltCam).time).toNat : Nat) : ℚ) *
            (index : ℚ)) ∧
      (readabilityCandidateTimes frameAnalysis camera).length =
        max 1 (pytrunc (camera.getLastD dfltCam).time).toNat + 1 := by
  intro frameAnalysis camera hstrict hrelax
  have hbody : readabilityCandidateTimes frameAnalysis camera =
      (List.range (max 1 (pytrunc (camera.getLastD dfltCam).time).toNat + 1)).map
        (fun index : Nat => (camera.getLastD dfltCam).time /
          ((max 1 (pytrunc (camera.getLastD dfltCam).time).toNat : Nat) : ℚ) *
          (index : ℚ)) := by
    unfold readabilityCandidateTimes
    simp [hstrict, hrelax]
  refine ⟨hbody, ?_⟩
  rw [hbody, List.length_map, List.length_range]

/-- Counterexample to C3 as stated: with an empty frame-analysis
cache and trajectory duration `D = 5/2`, the fallback produces
`max(1, int(5/2)) + 1 = 3` candidate times, not `⌈5/2⌉ + 1 = 4`. -/
theorem readability_fallback_counterexample :
    (readabilityCandidateTimes [] [⟨0, 1/2, 1/2, 1⟩, ⟨5/2, 1/2, 1/2, 1⟩]).length = 3 ∧
    (⌈(5/2 : ℚ)⌉).toNat + 1 = 4 ∧ (3 : Nat) ≠ 4 := by
  refine ⟨?_, ?_, by decide⟩
  · have htr : pytrunc (5/2 : ℚ) = 2 := by
      norm_num [pytrunc, Int.floor_eq_iff]
    unfold readabilityCandidateTimes strictCandidates relaxedCandidates
    simp [htr]
  · have hc : ⌈(5/2 : ℚ)⌉ = 3 := by norm_num [Int.ceil_eq_iff]
    rw [hc]
    decide

/-- Witness applying `readability_fallback_count` to an empty cache
and a trajectory ending at time 2. -/
theorem readability_fallback_witness :
    readabilityCandidateTimes [] [⟨2, 1/2, 1/2, 1⟩] =
      (List.range (max 1 (pytrunc ((List.getLastD [(⟨2, 1/2, 1/2, 1⟩ : CameraSample)]
        dfltCam).time)).toNat + 1)).map
        (fun index : Nat => (List.getLastD [(⟨2, 1/2, 1/2, 1⟩ : CameraSample)]
          dfltCam).time /
          ((max 1 (pytrunc ((List.getLastD [(⟨2, 1/2, 1/2, 1⟩ : CameraSample)]
            dfltCam).time)).toNat : Nat) : ℚ) * (index : ℚ)) ∧
    (readabilityCandidateTimes [] [⟨2, 1/2, 1/2, 1⟩]).length =
      max 1 (pytrunc ((List.getLastD [(⟨2, 1/2, 1/2, 1⟩ : CameraSample)]
        dfltCam).time)).toNat + 1 :=
  readability_fallback_count [] [⟨2, 1/2, 1/2, 1⟩] rfl rfl

/-- The spec's activity predicate: the cursor-selected segment is
active at `t` when `startTime ≤ t < endTime`, or — for the final
segment only — when `startTime ≤ t ≤ endTime` (and only when the
segment list is non-empty). -/
def SpecActive (segs : List Segment) (i : Nat) (t : ℚ) : Prop :=
  segs ≠ [] ∧
    ((segs.getD i dfltSeg).startTime.getD 0 ≤ t ∧
        t < (segs.getD i dfltSeg).endTime.getD 0 ∨
      i = segs.length - 1 ∧ (segs.getD i dfltSeg).startTime.getD 0 ≤ t ∧
        t ≤ (segs.getD i dfltSeg).endTime.getD 0)

/-- The cursor position after the advances performed by iterations
`0, …, j` of the sampling loop started at step `step0` with cursor
`i0`. -/
def iterAdvance (segs : List Segment) (duration dt : ℚ) (step0 i0 : Nat) : Nat → Nat
  | 0 => advanceIndex segs (min duration ((step0 : ℚ) * dt)) i0
  | Nat.succ j =>
    advanceIndex segs (min duration (((step0 + j + 1 : Nat) : ℚ) * dt))
      (iterAdvance segs duration dt step0 i0 j)

/-- The cursor used for the `k`-th emitted sample of
`sample_camera_from_segments`. -/
def cursorAt (segs : List Segment) (duration dt : ℚ) (k : Nat) : Nat :=
  iterAdvance segs duration dt 0 0 k

/-- One loop step, characterized through the spec's activity
predicate: active exactly under `SpecActive`, otherwise the held
previous coordinates are re-emitted. -/
theorem segmentStepPair_spec (fns : RealFns) (segs : List Segment) (t : ℚ)
    (i : Nat) (prev : CameraSample) :
    (SpecActive segs i t →
      segmentStepPair fns segs t i prev =
        (activeSample fns (segs.getD i dfltSeg) t, activeSample fns (segs.getD i dfltSeg) t)) ∧
    (¬ SpecActive segs i t →
      segmentStepPair fns segs t i prev = (⟨t, prev.x, prev.y, prev.zoom⟩, prev)) := by
  constructor
  · intro hact
    obtain ⟨hne, hcond⟩ := hact
    unfold segmentStepPair
    rw [if_pos hne]
    simp only
    rw [if_pos hcond]
  · intro hns
    unfold segmentStepPair
    by_cases hne : segs ≠ []
    · rw [if_pos hne]
      simp only
      rw [if_neg (fun hc => hns ⟨hne, hc⟩)]
    · rw [if_neg hne]

/-- Both components of a loop step share coordinates. -/
theorem segmentStepPair_coords (fns : RealFns) (segs : List Segment) (t : ℚ)
    (i : Nat) (prev : CameraSample) :
    (segmentStepPair fns segs t i prev).1.x = (segmentStepPair fns segs t i prev).2.x ∧
    (segmentStepPair fns segs t i prev).1.y = (segmentStepPair fns segs t i prev).2.y ∧
    (segmentStepPair fns segs t i prev).1.zoom =
      (segmentStepPair fns segs t i prev).2.zoom := by
  rcases segmentStepPair_cases fns segs t i prev with h | h <;>
    rw [h] <;> exact ⟨rfl, rfl, rfl⟩

/-- Shifting the loop start by one step composes with the cursor
iteration. -/
theorem iterAdvance_shift (segs : List Segment) (duration dt : ℚ) :
    ∀ (j step0 i0 : Nat),
      iterAdvance segs duration dt (step0 + 1)
        (advanceIndex segs (min duration ((step0 : ℚ) * dt)) i0) j =
      iterAdvance segs duration dt step0 i0 (j + 1) := by
  intro j
  induction j with
  | zero =>
    intro step0 i0
    unfold iterAdvance
    norm_num
    rfl
  | succ j ih =>
    intro step0 i0
    unfold iterAdvance
    rw [ih]
    congr 2
    push_cast
    ring

/-- Full characterization of the sampling loop through the spec's
activity predicate: the `j`-th emitted sample is the active-branch
interpolation when `SpecActive` holds at the iterated cursor, and
otherwise re-emits the previous emitted sample's coordinates (the
initial `previous` for `j = 0`). -/
theorem segmentsLoop_char (fns : RealFns) (segs : List Segment) (duration dt : ℚ) :
    ∀ (r j step0 i0 : Nat) (prev : CameraSample), j < r →
      (SpecActive segs (iterAdvance segs duration dt step0 i0 j)
          (min duration (((step0 + j : Nat) : ℚ) * dt)) →
        (segmentsLoop fns segs duration dt r step0 i0 prev).getD j dfltCam =
          activeSample fns
            (segs.getD (iterAdvance segs duration dt step0 i0 j) dfltSeg)
            (min duration (((step0 + j : Nat) : ℚ) * dt))) ∧
      (¬ SpecActive segs (iterAdvance segs duration dt step0 i0 j)
          (min duration (((step0 + j : Nat) : ℚ) * dt)) →
        (segmentsLoop fns segs duration dt r step0 i0 prev).getD j dfltCam =
          ⟨min duration (((step0 + j : Nat) : ℚ) * dt),
            (if j = 0 then prev
              else (segmentsLoop fns segs duration dt r step0 i0 prev).getD (j - 1) dfltCam).x,
            (if j = 0 then prev
              else (segmentsLoop fns segs duration dt r step0 i0 prev).getD (j - 1) dfltCam).y,
            (if j = 0 then prev
              else (segmentsLoop fns segs duration dt r step0 i0 prev).getD (j - 1) dfltCam).zoom⟩) := by
  intro r
  induction r with
  | zero =>
    intro j step0 i0 prev hj
    omega
  | succ r ih =>
    intro j step0 i0 prev hj
    cases j with
    | zero =>
      have hc0 : ((step0 + 0 : Nat) : ℚ) = (step0 : ℚ) := by norm_num
      have hiter0 : iterAdvance segs duration dt step0 i0 0 =
          advanceIndex segs (min duration ((step0 : ℚ) * dt)) i0 := rfl
      rw [segmentsLoop]
      simp only [List.getD_cons_zero, if_pos rfl, hc0, hiter0]
      constructor
      · intro hact
        exact congrArg Prod.fst ((segmentStepPair_spec fns segs
          (min duration ((step0 : ℚ) * dt))
          (advanceIndex segs (min duration ((step0 : ℚ) * dt)) i0) prev).1 hact)
      · intro hns
        exact congrArg Prod.fst ((segmentStepPair_spec fns segs
          (min duration ((step0 : ℚ) * dt))
          (advanceIndex segs (min duration ((step0 : ℚ) * dt)) i0) prev).2 hns)
    | succ j' =>
      have hiter := iterAdvance_shift segs duration dt j' step0 i0
      have htime : ((step0 + (j' + 1) : Nat) : ℚ) = (((step0 + 1) + j' : Nat) : ℚ) := by
        push_cast
        ring
      rw [segmentsLoop]
      simp only [List.getD_cons_succ]
      have hih := ih j' (step0 + 1)
        (advanceIndex segs (min duration ((step0 : ℚ) * dt)) i0)
        (segmentStepPair fns segs (min duration ((step0 : ℚ) * dt))
          (advanceIndex segs (min duration ((step0 : ℚ) * dt)) i0) prev).2
        (by omega)
      rw [hiter] at hih
      rw [← htime] at hih
      constructor
      · intro hact
        exact hih.1 hact
      · intro hns
        have hres := hih.2 hns
        rw [hres]
        cases j' with
        | zero =>
          have hco := segmentStepPair_coords fns segs (min duration ((step0 : ℚ) * dt))
            (advanceIndex segs (min duration ((step0 : ℚ) * dt)) i0) prev
          simp only [List.getD_cons_zero, Nat.succ_sub_one]
          norm_num
          rw [hco.1, hco.2.1, hco.2.2]
          exact ⟨rfl, rfl, rfl⟩
        | succ j'' =>
          simp only [Nat.succ_sub_one, List.getD_cons_succ]
          norm_num

/-- C6: during segment sampling, the cursor-selected segment is
treated as active at output time `t` exactly when
`startTime ≤ t < endTime` — except for the final segment, which is
also active at `t = endTime`; when no segment is active, the
previous emitted sample's `(x, y, zoom)` is re-emitted at time `t`,
with the initial defaults `(0.5, 0.5, 1.0)` before any segment. -/
theorem segment_sampling_active_hold :
    ∀ (fns : RealFns) (segments : List Segment) (duration sample_rate : ℚ),
      0 < duration →
      ∀ k : Nat, k ≤ max 1 (⌈duration / (1 / max 1 sample_rate)⌉).toNat →
      (SpecActive
          (segments.insertionSort (fun a b => a.startTime.getD 0 ≤ b.startTime.getD 0))
          (cursorAt
            (segments.insertionSort (fun a b => a.startTime.getD 0 ≤ b.startTime.getD 0))
            duration (1 / max 1 sample_rate) k)
          (min duration ((k : ℚ) * (1 / max 1 sample_rate))) →
        (sample_camera_from_segments fns segments duration sample_rate).getD k dfltCam =
          activeSample fns
            ((segments.insertionSort
                (fun a b => a.startTime.getD 0 ≤ b.startTime.getD 0)).getD
              (cursorAt
                (segments.insertionSort
                  (fun a b => a.startTime.getD 0 ≤ b.startTime.getD 0))
                duration (1 / max 1 sample_rate) k) dfltSeg)
            (min duration ((k : ℚ) * (1 / max 1 sample_rate)))) ∧
      (¬ SpecActive
          (segments.insertionSort (fun a b => a.startTime.getD 0 ≤ b.startTime.getD 0))
          (cursorAt
            (segments.insertionSort (fun a b => a.startTime.getD 0 ≤ b.startTime.getD 0))
            duration (1 / max 1 sample_rate) k)
          (min duration ((k : ℚ) * (1 / max 1 sample_rate))) →
        (sample_camera_from_segments fns segments duration sample_rate).getD k dfltCam =
          ⟨min duration ((k : ℚ) * (1 / max 1 sample_rate)),
            (if k = 0 then (⟨0, 1/2, 1/2, 1⟩ : CameraSample)
              else (sample_camera_from_segments fns segments duration
                sample_rate).getD (k - 1) dfltCam).x,
            (if k = 0 then (⟨0, 1/2, 1/2, 1⟩ : CameraSample)
              else (sample_camera_from_segments fns segments duration
                sample_rate).getD (k - 1) dfltCam).y,
            (if k = 0 then (⟨0, 1/2, 1/2, 1⟩ : CameraSample)
              else (sample_camera_from_segments fns segments duration
                sample_rate).getD (k - 1) dfltCam).zoom⟩) := by
  intro fns segments duration sample_rate hd k hk
  unfold sample_camera_from_segments
  rw [if_neg (not_le.mpr hd)]
  simp only
  have hchar := segmentsLoop_char fns
    (segments.insertionSort (fun a b => a.startTime.getD 0 ≤ b.startTime.getD 0))
    duration (1 / max 1 sample_rate)
    (max 1 (⌈duration / (1 / max 1 sample_rate)⌉).toNat + 1) k 0 0
    ⟨0, 1/2, 1/2, 1⟩ (by omega)
  simp only [Nat.zero_add] at hchar
  exact hchar

/-- Witness applying `segment_sampling_active_hold` at `k = 0` to a
single segment `[0, 2)` covering the first sample time `t = 0`. -/
theorem segment_sampling_active_hold_witness :
    (sample_camera_from_segments stubFns
        [⟨some 0, some 2, none, none, none⟩] 1 1).getD 0 dfltCam =
      activeSample stubFns
        (([(⟨some 0, some 2, none, none, none⟩ : Segment)].insertionSort
            (fun a b => a.startTime.getD 0 ≤ b.startTime.getD 0)).getD
          (cursorAt
            ([(⟨some 0, some 2, none, none, none⟩ : Segment)].insertionSort
              (fun a b => a.startTime.getD 0 ≤ b.startTime.getD 0))
            1 (1 / max 1 1) 0) dfltSeg)
        (min 1 (((0 : Nat) : ℚ) * (1 / max 1 1))) := by
  have hsort : [(⟨some 0, some 2, none, none, none⟩ : Segment)].insertionSort
      (fun a b => a.startTime.getD 0 ≤ b.startTime.getD 0) =
      [⟨some 0, some 2, none, none, none⟩] := by
    simp [List.insertionSort, List.orderedInsert]
  have hcur : cursorAt [(⟨some 0, some 2, none, none, none⟩ : Segment)]
      1 (1 / max 1 1) 0 = 0 := by
    unfold cursorAt iterAdvance
    rw [advanceIndex]
    rw [if_neg (by simp)]
  refine (segment_sampling_active_hold stubFns
    [⟨some 0, some 2, none, none, none⟩] 1 1 (by norm_num) 0 (by omega)).1 ?_
  rw [hsort, hcur]
  refine ⟨by simp, Or.inl ⟨?_, ?_⟩⟩ <;> norm_num [List.getD_cons_zero]
